import Mathlib

/-!
# Verification of the ocsf-lib-py core against its specification

This development shallowly embeds the load-bearing algorithms of the
`ocsf` Python package — the structural merge (`ocsf/compile/merge.py`),
the compilation-plan ordering (`ocsf/compile/compiler.py`), the UID
synthesis planner (`ocsf/compile/planners/uid.py`), the JSON key-rename
boundary (`ocsf/schema/json.py`), the diff engine
(`ocsf/compare/compare.py`, `factory.py`, `model.py`), and the
copy-on-first-access working-schema overlay
(`ocsf/compile/protoschema.py`) — and proves or refutes the
specification's claims about them.

Python dictionaries are modelled as association lists in insertion
order; Python `None` is modelled by a dedicated constructor or
`Option`.  In-place mutation is modelled by returning the updated
value; where object identity itself matters (the working-schema
overlay), an explicit address/heap model is used.
-/

deriving instance DecidableEq for Except

namespace Ocsf

/-! ## Structural merge (`ocsf/compile/merge.py`)

The Python merge is reflective: it walks the declared fields of an
arbitrary `DefinitionPart` dataclass by name.  We therefore model a
`DefinitionPart` generically as an ordered association list of field
names to field values (`Entries`), and field values (`FieldVal`) as the
closed universe of data occurring in definition records: `None`,
scalars, lists, string-keyed dictionaries and nested parts.
-/

mutual

/-- A field value of a `DefinitionPart` dataclass: Python `None`,
scalars, `list[...]`, `dict[str, _]` (insertion-ordered) or a nested
`DefinitionPart`. -/
inductive FieldVal where
  | none
  | str (s : String)
  | int (i : Int)
  | bool (b : Bool)
  | list (xs : VList)
  | dict (entries : Entries)
  | part (fields : Entries)
deriving DecidableEq, Repr

/-- A Python list of field values. -/
inductive VList where
  | nil
  | cons (head : FieldVal) (tail : VList)
deriving DecidableEq, Repr

/-- An insertion-ordered string-keyed association list: the entries of a
Python `dict`, or the declared fields of a dataclass instance with their
current values. -/
inductive Entries where
  | nil
  | cons (key : String) (val : FieldVal) (tail : Entries)
deriving DecidableEq, Repr

end

/-- A `DefinitionPart` dataclass instance: its declared fields, in
declaration order, with their current values (an absent optional field
holds `None`). -/
abbrev Part := Entries

namespace VList

/-- Convert a Lean list literal to a `VList`. -/
def ofList : List FieldVal → VList
  | [] => .nil
  | x :: xs => .cons x (ofList xs)

/-- Python `x in xs` membership. -/
def isMem (x : FieldVal) : VList → Bool
  | .nil => false
  | .cons y ys => x = y || isMem x ys

/-- Concatenation (`left + right`). -/
def append : VList → VList → VList
  | .nil, ys => ys
  | .cons x xs, ys => .cons x (append xs ys)

/-- First-occurrence deduplication. -/
def dedup : VList → VList
  | .nil => .nil
  | .cons x xs => if isMem x xs then dedup xs else .cons x (dedup xs)

end VList

namespace Entries

/-- Convert a Lean list literal to `Entries`. -/
def ofList : List (String × FieldVal) → Entries
  | [] => .nil
  | (k, v) :: rest => .cons k v (ofList rest)

/-- Python `key in d` / `getattr` lookup: value of the first entry with
the given key, if any. -/
def lookup (es : Entries) (k : String) : Option FieldVal :=
  match es with
  | .nil => Option.none
  | .cons k' v rest => if k' = k then some v else lookup rest k

/-- Python `d[key] = v` on an existing key (position preserved); every
entry carrying the key is updated, matching a duplicate-free dict. -/
def set (es : Entries) (k : String) (v : FieldVal) : Entries :=
  match es with
  | .nil => .nil
  | .cons k' v' rest =>
    if k' = k then .cons k' v (set rest k v) else .cons k' v' (set rest k v)

/-- Python `d[key] = v` on a missing key: append at the end. -/
def append (es : Entries) (k : String) (v : FieldVal) : Entries :=
  match es with
  | .nil => .cons k v .nil
  | .cons k' v' rest => .cons k' v' (append rest k v)

/-- Number of entries (`len(d)`). -/
def length : Entries → Nat
  | .nil => 0
  | .cons _ _ rest => length rest + 1

end Entries

/-- An entry of `merge.py`'s `FieldList` (`list[str | tuple[str, ...]]`):
either a bare field name or a tuple path. -/
inductive FieldSel where
  | name (s : String)
  | path (p : List String)
deriving DecidableEq, Repr

/-- `merge.py` `MergeOptions`.  `overwrite : Optional[bool]` keeps the
Python three-valued form; `copy` has no observable effect in a value
semantics (it only prevents aliasing) but is kept for fidelity. -/
structure MergeOptions where
  overwrite : Option Bool := Option.none
  allowed_fields : Option (List FieldSel) := Option.none
  ignored_fields : Option (List FieldSel) := Option.none
  add_dict_items : Bool := true
  copy : Bool := true
  overwrite_none : Bool := false
  merge_lists : Bool := true
deriving Repr

/-- Whether a `FieldVal` is a Python list (`isinstance(v, list)`). -/
def FieldVal.isList : FieldVal → Bool
  | .list _ => true
  | _ => false

/-- Whether a `FieldVal` is Python `None`. -/
def FieldVal.isNone : FieldVal → Bool
  | .none => true
  | _ => false

/-- Whether a `FieldVal` is a `DefinitionPart`
(`isinstance(v, DefinitionPart)`). -/
def FieldVal.isPart : FieldVal → Bool
  | .part _ => true
  | _ => false

/-- The truthiness of `options.overwrite` (`None` is falsy). -/
def MergeOptions.overwriteB (o : MergeOptions) : Bool :=
  o.overwrite.getD false

/-- `merge.py` `_can_update`'s inner `change_field()` closure. -/
def changeField (left right : FieldVal) (o : MergeOptions) : Bool :=
  if o.overwriteB && o.overwrite_none then
    true
  else if o.overwriteB && !o.overwrite_none && !right.isNone then
    true
  else if o.merge_lists && left.isList && right.isList then
    true
  else
    left.isNone && !right.isNone

/-- One test of the `allowed_fields`/`ignored_fields` loops:
`path[: len(allow)] == allow` for a tuple entry, `path[0] == allow` for a
string entry.  (`path` is never empty: it is always `trail + (attr,)`.) -/
def FieldSel.matches (sel : FieldSel) (path : List String) : Bool :=
  match sel with
  | .path p => path.take p.length = p
  | .name s =>
    match path with
    | p0 :: _ => p0 = s
    | [] => false

/-- The `for allow in options.allowed_fields` loop: `update` starts
`False`; a matching entry sets `update = change_field()` and the loop
breaks as soon as `update` is truthy. -/
def allowLoop (path : List String) (cf : Bool) : List FieldSel → Bool
  | [] => false
  | a :: rest =>
    if a.matches path then
      if cf then true else allowLoop path cf rest
    else allowLoop path cf rest

/-- The `for deny in options.ignored_fields` loop: a matching entry
forces `update = False`; otherwise `update` stays `None` and falls back
to `change_field()`. -/
def denyLoop (path : List String) (cf : Bool) : List FieldSel → Bool
  | [] => cf
  | d :: rest => if d.matches path then false else denyLoop path cf rest

/-- `merge.py` `_can_update(path, left_value, right_value, options)`. -/
def canUpdate (path : List String) (left right : FieldVal) (o : MergeOptions) : Bool :=
  let cf := changeField left right o
  match o.allowed_fields with
  | some allows => allowLoop path cf allows
  | Option.none =>
    match o.ignored_fields with
    | some denies => denyLoop path cf denies
    | Option.none => cf

/-- `MergeResult`: the list of field paths the merge assigned. -/
abbrev MergeResult := List (List String)

/-- Python `list(set(left + right))` on lists of field values.  CPython's
set iteration order is unspecified; we canonicalise to first-occurrence
order of the concatenation, which agrees with Python on membership and
on each element appearing exactly once. -/
def pySetUnion (left right : VList) : VList :=
  (left.append right).dedup

mutual

/-- A leaf-constant "spine size" of a field value: dictionary and part
nodes count their entries, everything else counts 1.  Used only to
compute sufficient fuel for `mergeGo`. -/
def FieldVal.nodes : FieldVal → Nat
  | .dict es => es.nodesE + 1
  | .part fs => fs.nodesE + 1
  | _ => 1

/-- Spine size of an entry list. -/
def Entries.nodesE : Entries → Nat
  | .nil => 1
  | .cons _ v rest => v.nodes + rest.nodesE + 1

end

/-- A pending step of the merge: the `for attr in get_type_hints(left)`
field loop (`fields`), or the `for key, value in right_value.items()`
dictionary loop (`dictEntries`). -/
inductive MergeTask where
  | fields (acc right : Part) (trail : List String) (todo : Entries)
  | dictEntries (leftD res : Entries) (path : List String)
deriving DecidableEq, Repr

/-- The body of `merge(left, right, options=..., trail=...)` once the
named parameters are folded into `options`: the declared-field loop of
`merge` and the dictionary branch's entry loop, driven by explicit fuel
(each call consumes one unit; `merge` supplies `mergeFuel`, which
exceeds the recursion depth — see `mergeFuel` — so the `0` branches are
never taken on a real run).

In the `fields` loop: a field absent on the right is skipped
(`hasattr`); two dictionaries with a non-empty right recurse entry by
entry; two parts recurse wholesale; two lists under `merge_lists` are
set-unioned; everything else is a scalar assignment guarded by
`_can_update`.  In the `dictEntries` loop: a key missing on the left is
added when `add_dict_items` and `_can_update(next_path, None, value,
options)` allow; two `DefinitionPart` values recurse with trail
`next_path`; otherwise the entry is assigned when
`_can_update(path, left_value[key], right_value[key], options)` allows —
note `path`, the containing field's path, not `next_path`. -/
def mergeGo (o : MergeOptions) : Nat → MergeTask → Entries × MergeResult
  | 0, .fields acc _ _ _ => (acc, [])
  | 0, .dictEntries ld _ _ => (ld, [])
  | _ + 1, .fields acc _ _ .nil => (acc, [])
  | fuel + 1, .fields acc right trail (.cons attr _ rest) =>
    let step : Entries × MergeResult :=
      match right.lookup attr with
      | Option.none => (acc, [])  -- not hasattr(right, attr)
      | some rightValue =>
        let path := trail ++ [attr]
        match (acc.lookup attr).getD .none, rightValue with
        | .dict ld, .dict rd =>
          if rd.length > 0 then
            match mergeGo o fuel (.dictEntries ld rd path) with
            | (sub, subres) => (acc.set attr (.dict sub), subres)
          else
            -- right dict empty: `simple` stays True, the scalar rule runs
            if canUpdate path (.dict ld) (.dict rd) o then
              (acc.set attr (.dict rd), [path])
            else
              (acc, [])
        | .part lp, .part rp =>
          match mergeGo o fuel (.fields lp rp path lp) with
          | (sub, subres) => (acc.set attr (.part sub), subres)
        | .list ll, .list rl =>
          if canUpdate path (.list ll) (.list rl) o && o.merge_lists then
            (acc.set attr (.list (pySetUnion ll rl)), [path])
          else if canUpdate path (.list ll) (.list rl) o then
            (acc.set attr (.list rl), [path])
          else
            (acc, [])
        | l, r =>
          if canUpdate path l r o then
            (acc.set attr r, [path])
          else
            (acc, [])
    match step with
    | (acc1, res1) =>
      match mergeGo o fuel (.fields acc1 right trail rest) with
      | (acc2, res2) => (acc2, res1 ++ res2)
  | _ + 1, .dictEntries ld .nil _ => (ld, [])
  | fuel + 1, .dictEntries ld (.cons key value rest) path =>
    let nextPath := path ++ [key]
    let step : Entries × MergeResult :=
      match ld.lookup key, value with
      | Option.none, v =>
        if o.add_dict_items && canUpdate nextPath .none v o then
          (ld.append key v, [nextPath])
        else
          (ld, [])
      | some (.part lp), .part rp =>
        match mergeGo o fuel (.fields lp rp nextPath lp) with
        | (sub, subres) => (ld.set key (.part sub), subres)
      | some lv, v =>
        if canUpdate path lv v o then
          (ld.set key v, [nextPath])
        else
          (ld, [])
    match step with
    | (acc1, res1) =>
      match mergeGo o fuel (.dictEntries acc1 rest path) with
      | (acc2, res2) => (acc2, res1 ++ res2)

/-- Fuel that `mergeGo` cannot exhaust: along any call chain, every
`fields` frame iterates the entry cells of a sub-part of the original
left operand, every `dictEntries` frame iterates the entry cells of a
sub-dictionary of the original right operand, and every part/dict
descent steps to strictly deeper such cells — the frames along one
chain occupy pairwise distinct cells of the two original operands, so
the recursion depth is at most `left.nodesE + right.nodesE`. -/
def mergeFuel (left right : Part) : Nat :=
  left.nodesE + right.nodesE + 1

/-- `merge.py` `merge(left, right, overwrite, *, allowed_fields,
ignored_fields)`: fold the named parameters into the options, then run
the field loop.  Returns the mutated left part and the list of assigned
field paths. -/
def merge (left right : Part) (overwrite : Option Bool := Option.none)
    (allowed_fields : Option (List FieldSel) := Option.none)
    (ignored_fields : Option (List FieldSel) := Option.none)
    (options : MergeOptions := {}) : Part × MergeResult :=
  let o₁ := match overwrite with
    | some b => { options with overwrite := some b }
    | Option.none => options
  let o₂ := match allowed_fields with
    | some fs => { o₁ with allowed_fields := some fs }
    | Option.none => o₁
  let o₃ := match ignored_fields with
    | some fs => { o₂ with ignored_fields := some fs }
    | Option.none => o₂
  mergeGo o₃ (mergeFuel left right) (.fields left right [] left)

/-! ## The diff engine (`ocsf/compare/compare.py`, `factory.py`, `model.py`)

`compare(old, new)` builds a typed `ChangedModel` when both values are
OCSF models of the same concrete type (via `create_diff`, which raises
`ValueError` for a model without a `ChangedModel` — `OcsfCategory`),
and otherwise returns `NoChange`/`Change` by equality.  The resolved
schema model of `ocsf/schema/model.py` is embedded as plain structures
(dictionaries as insertion-ordered association lists), the universe of
comparable values as `Value`, and diff results as `Diff`.

Python notes reflected here: `compare` walks `get_type_hints(old_val)`
— the *source* model's declared fields — and `setattr`s the result
slots; for the fields `OcsfAttr.object_type/object_name/type_name` and
`OcsfSchema.categories`, the target `ChangedAttr`/`ChangedSchema`
declares no such field, so `setattr` creates a dynamic attribute that
dataclass equality and printing ignore; the model therefore computes
those comparisons for their effects (a raise in the `categories` case)
and drops the values.  `compare_dict` iterates a `set` of keys whose
order CPython leaves unspecified; the model uses first-occurrence order
of the two key lists, and Python dictionary equality ignores order. -/

/-- A scalar member of a `list[Any]`-typed field (`OcsfType.values`). -/
inductive PrimAny where
  | int (i : Int)
  | str (s : String)
  | bool (b : Bool)
  | null
deriving DecidableEq, Repr

/-- `OcsfAttr.profile : Optional[str | list[str]]`. -/
inductive StrOrList where
  | one (s : String)
  | many (xs : List String)
deriving DecidableEq, Repr

/-- `model.py` `OcsfVersion`. -/
structure OcsfVersion where
  version : String
deriving DecidableEq, Repr

/-- `model.py` `OcsfEnumMember`. -/
structure OcsfEnumMember where
  caption : String
  description : Option String := Option.none
  notes : Option String := Option.none
deriving DecidableEq, Repr

/-- `model.py` `OcsfDeprecationInfo`. -/
structure OcsfDeprecationInfo where
  message : String
  since : String
deriving DecidableEq, Repr

/-- `model.py` `OcsfType`. -/
structure OcsfType where
  caption : String
  description : Option String := Option.none
  is_array : Bool := false
  deprecated : Option OcsfDeprecationInfo := Option.none
  max_len : Option Int := Option.none
  observable : Option Int := Option.none
  range : Option (List Int) := Option.none
  regex : Option String := Option.none
  type : Option String := Option.none
  type_name : Option String := Option.none
  values : Option (List PrimAny) := Option.none
deriving DecidableEq, Repr

/-- `model.py` `OcsfAttr`. -/
structure OcsfAttr where
  caption : String
  type : String
  requirement : String := "optional"
  description : Option String := Option.none
  is_array : Bool := false
  deprecated : Option OcsfDeprecationInfo := Option.none
  enum : Option (List (String × OcsfEnumMember)) := Option.none
  group : Option String := Option.none
  observable : Option Int := Option.none
  profile : Option StrOrList := Option.none
  sibling : Option String := Option.none
  object_type : Option String := Option.none
  object_name : Option String := Option.none
  type_name : Option String := Option.none
deriving DecidableEq, Repr

/-- `model.py` `OcsfObject`. -/
structure OcsfObject where
  caption : String
  name : String
  description : Option String := Option.none
  attributes : List (String × OcsfAttr) := []
  ext : Option String := Option.none  -- the `extends` field; `extends` is a Lean keyword
  observable : Option Int := Option.none
  profiles : Option (List String) := Option.none
  constraints : Option (List (String × List String)) := Option.none
  deprecated : Option OcsfDeprecationInfo := Option.none
deriving DecidableEq, Repr

/-- `model.py` `OcsfEvent`. -/
structure OcsfEvent where
  caption : String
  name : String
  attributes : List (String × OcsfAttr) := []
  description : Option String := Option.none
  uid : Option Int := Option.none
  category : Option String := Option.none
  ext : Option String := Option.none  -- the `extends` field; `extends` is a Lean keyword
  profiles : Option (List String) := Option.none
  associations : Option (List (String × List String)) := Option.none
  constraints : Option (List (String × List String)) := Option.none
  deprecated : Option OcsfDeprecationInfo := Option.none
deriving DecidableEq, Repr

/-- `model.py` `OcsfProfile`. -/
structure OcsfProfile where
  caption : String
  name : String
  meta : String := "profile"
  description : Option String := Option.none
  attributes : List (String × OcsfAttr) := []
  deprecated : Option OcsfDeprecationInfo := Option.none
  annotations : Option (List (String × String)) := Option.none
deriving DecidableEq, Repr

/-- `model.py` `OcsfExtension`. -/
structure OcsfExtension where
  name : String
  uid : Int
  caption : String
  version : Option String := Option.none
  description : Option String := Option.none
  deprecated : Option OcsfDeprecationInfo := Option.none
deriving DecidableEq, Repr

/-- `model.py` `OcsfCategory`. -/
structure OcsfCategory where
  name : String
  uid : Int
  caption : String
  description : Option String := Option.none
  deprecated : Option OcsfDeprecationInfo := Option.none
  classes : Option (List (String × OcsfEvent)) := Option.none
deriving DecidableEq, Repr

/-- `model.py` `OcsfSchema`. -/
structure OcsfSchema where
  version : String
  classes : List (String × OcsfEvent) := []
  objects : List (String × OcsfObject) := []
  types : List (String × OcsfType) := []
  base_event : Option OcsfEvent := Option.none
  profiles : Option (List (String × OcsfProfile)) := Option.none
  extensions : Option (List (String × OcsfExtension)) := Option.none
  categories : Option (List (String × OcsfCategory)) := Option.none
deriving DecidableEq, Repr

/-- The closed set of `OcsfModel` subclasses. -/
inductive OcsfModelV where
  | version (v : OcsfVersion)
  | enumMember (m : OcsfEnumMember)
  | deprecationInfo (d : OcsfDeprecationInfo)
  | type (t : OcsfType)
  | attr (a : OcsfAttr)
  | object (o : OcsfObject)
  | event (e : OcsfEvent)
  | profile (p : OcsfProfile)
  | extension (x : OcsfExtension)
  | category (c : OcsfCategory)
  | schema (s : OcsfSchema)
deriving DecidableEq, Repr

/-- The universe of values `compare` is applied to: the primitives and
optionals that occur as model fields or dictionary entries, and the
models themselves. -/
inductive Value where
  | none
  | int (i : Int)
  | str (s : String)
  | bool (b : Bool)
  | strList (xs : List String)
  | intList (xs : List Int)
  | anyList (xs : List PrimAny)
  | strOrList (x : StrOrList)
  | model (m : OcsfModelV)
deriving DecidableEq, Repr

mutual

/-- `compare/model.py`'s `Difference` hierarchy: `NoChange`,
`Addition`, `Removal`, `Change`, the per-model `ChangedModel` variants
(slot order is the declared field order of the corresponding
`Changed*` dataclass), and the `dict[K, Difference]` results of
`compare_dict` (`dictDiff`; a Python dict is not itself a `Difference`,
but it is what `compare` stores in dictionary-typed slots). -/
inductive Diff where
  | noChange
  | addition (after : Value)
  | removal (before : Value)
  | change (before after : Value)
  | dictDiff (entries : DiffEntries)
  | changedVersion (version : Diff)
  | changedEnumMember (caption description notes : Diff)
  | changedDeprecationInfo (message since : Diff)
  | changedType (caption description is_array deprecated max_len observable range regex type type_name values : Diff)
  | changedAttr (caption description requirement type is_array enum group observable sibling profile deprecated : Diff)
  | changedObject (caption name attributes description ext observable profiles constraints deprecated : Diff)
  | changedEvent (caption name attributes description uid category ext profiles associations constraints inc deprecated : Diff)
  | changedProfile (caption name meta description attributes deprecated annotations : Diff)
  | changedExtension (name version uid caption description deprecated : Diff)
  | changedSchema (classes objects version types base_event profiles extensions : Diff)

/-- The entries of a `dict[K, Difference]` result. -/
inductive DiffEntries where
  | nil
  | cons (key : String) (d : Diff) (tail : DiffEntries)

end

deriving instance DecidableEq for Diff
deriving instance Repr for Diff

/-- Generic primitive comparison: `old_val == new_val` yields
`NoChange`, anything else `Change(before, after)`. -/
def cmpEq {α : Type} [DecidableEq α] (toVal : α → Value) (a b : α) : Diff :=
  if a = b then .noChange else .change (toVal a) (toVal b)

def strVal : String → Value := .str
def optStrVal : Option String → Value
  | some s => .str s
  | Option.none => .none
def boolVal : Bool → Value := .bool
def intVal : Int → Value := .int
def optIntVal : Option Int → Value
  | some i => .int i
  | Option.none => .none
def optStrListVal : Option (List String) → Value
  | some xs => .strList xs
  | Option.none => .none
def optIntListVal : Option (List Int) → Value
  | some xs => .intList xs
  | Option.none => .none
def optAnyListVal : Option (List PrimAny) → Value
  | some xs => .anyList xs
  | Option.none => .none
def optProfileVal : Option StrOrList → Value
  | some x => .strOrList x
  | Option.none => .none
def strListVal : List String → Value := .strList

/-- `compare` on an `Optional[OcsfDeprecationInfo]` field: two present
values of the same model type are walked field by field (even when
equal); otherwise the primitive rule applies. -/
def cmpOptDep : Option OcsfDeprecationInfo → Option OcsfDeprecationInfo → Diff
  | some a, some b => .changedDeprecationInfo (cmpEq strVal a.message b.message) (cmpEq strVal a.since b.since)
  | Option.none, Option.none => .noChange
  | a, b => .change (match a with | some x => .model (.deprecationInfo x) | Option.none => .none)
      (match b with | some x => .model (.deprecationInfo x) | Option.none => .none)

/-- The keys of `compare_dict`: `set(old.keys()) | set(new.keys())`,
in first-occurrence order (CPython's set order is unspecified; Python
dictionary equality ignores it). -/
def unionKeys (old new : List String) : List String :=
  (old ++ new).eraseDups

/-- One `compare_dict` entry. -/
def compareDictKey {α : Type} [DecidableEq α] (cmp : α → α → Except String Diff)
    (toVal : α → Value) (old new : List (String × α)) (k : String) :
    Except String Diff :=
  match (old.lookup k), (new.lookup k) with
  | some v, Option.none => .ok (.removal (toVal v))
  | Option.none, some v => .ok (.addition (toVal v))
  | some v1, some v2 => if v1 = v2 then .ok .noChange else cmp v1 v2
  | Option.none, Option.none => .ok .noChange  -- unreachable: k comes from the key union

/-- Build the result entries of `compare_dict` over a key list. -/
def compareDictGo {α : Type} [DecidableEq α] (cmp : α → α → Except String Diff)
    (toVal : α → Value) (old new : List (String × α)) :
    List String → Except String DiffEntries
  | [] => .ok .nil
  | k :: ks => do
    let d ← compareDictKey cmp toVal old new k
    let rest ← compareDictGo cmp toVal old new ks
    .ok (.cons k d rest)

/-- `compare.py` `compare_dict(old_val, new_val)`: `NoChange` when both
are `None`, otherwise a dictionary over the union of the key sets with
`Removal`/`Addition` for one-sided keys, `NoChange` for equal values
and a recursive `compare` otherwise. -/
def compare_dict {α : Type} [DecidableEq α] (cmp : α → α → Except String Diff)
    (toVal : α → Value) (old new : Option (List (String × α))) :
    Except String Diff :=
  match old, new with
  | Option.none, Option.none => .ok .noChange
  | _, _ => do
    let o := old.getD []
    let n := new.getD []
    let es ← compareDictGo cmp toVal o n (unionKeys (o.map Prod.fst) (n.map Prod.fst))
    .ok (.dictDiff es)

/-- The field walk for two `OcsfVersion` values. -/
def compareVersion (a b : OcsfVersion) : Diff :=
  .changedVersion (cmpEq strVal a.version b.version)

/-- The field walk for two `OcsfEnumMember` values. -/
def compareEnumMember (a b : OcsfEnumMember) : Diff :=
  .changedEnumMember (cmpEq strVal a.caption b.caption)
    (cmpEq optStrVal a.description b.description)
    (cmpEq optStrVal a.notes b.notes)

/-- The field walk for two `OcsfDeprecationInfo` values. -/
def compareDeprecationInfo (a b : OcsfDeprecationInfo) : Diff :=
  .changedDeprecationInfo (cmpEq strVal a.message b.message) (cmpEq strVal a.since b.since)

/-- The field walk for two `OcsfType` values. -/
def compareType (a b : OcsfType) : Diff :=
  .changedType (cmpEq strVal a.caption b.caption)
    (cmpEq optStrVal a.description b.description)
    (cmpEq boolVal a.is_array b.is_array)
    (cmpOptDep a.deprecated b.deprecated)
    (cmpEq optIntVal a.max_len b.max_len)
    (cmpEq optIntVal a.observable b.observable)
    (cmpEq optIntListVal a.range b.range)
    (cmpEq optStrVal a.regex b.regex)
    (cmpEq optStrVal a.type b.type)
    (cmpEq optStrVal a.type_name b.type_name)
    (cmpEq optAnyListVal a.values b.values)

/-- The field walk for two `OcsfAttr` values.  The source fields
`object_type`, `object_name` and `type_name` are also compared by the
Python loop, but `setattr` stores them as dynamic attributes that
`ChangedAttr`'s declared fields (and equality) do not include; their
comparisons are primitive and cannot raise, so they are dropped. -/
def compareAttr (a b : OcsfAttr) : Except String Diff := do
  let enumDiff ← compare_dict (fun x y => .ok (compareEnumMember x y))
    (fun m => .model (.enumMember m)) a.enum b.enum
  .ok (.changedAttr (cmpEq strVal a.caption b.caption)
    (cmpEq optStrVal a.description b.description)
    (cmpEq strVal a.requirement b.requirement)
    (cmpEq strVal a.type b.type)
    (cmpEq boolVal a.is_array b.is_array)
    enumDiff
    (cmpEq optStrVal a.group b.group)
    (cmpEq optIntVal a.observable b.observable)
    (cmpEq optStrVal a.sibling b.sibling)
    (cmpEq optProfileVal a.profile b.profile)
    (cmpOptDep a.deprecated b.deprecated))

/-- `compare` on an attribute dictionary entry. -/
def cmpAttrEntry (x y : OcsfAttr) : Except String Diff := compareAttr x y

/-- The field walk for two `OcsfObject` values. -/
def compareObject (a b : OcsfObject) : Except String Diff := do
  let attrsDiff ← compare_dict cmpAttrEntry (fun m => .model (.attr m))
    (some a.attributes) (some b.attributes)
  let constraintsDiff ← compare_dict (fun x y => .ok (cmpEq strListVal x y))
    (fun xs => .strList xs) a.constraints b.constraints
  .ok (.changedObject (cmpEq strVal a.caption b.caption)
    (cmpEq strVal a.name b.name)
    attrsDiff
    (cmpEq optStrVal a.description b.description)
    (cmpEq optStrVal a.ext b.ext)
    (cmpEq optIntVal a.observable b.observable)
    (cmpEq optStrListVal a.profiles b.profiles)
    constraintsDiff
    (cmpOptDep a.deprecated b.deprecated))

/-- The field walk for two `OcsfEvent` values.  `ChangedEvent` also
declares an `include` slot with no `OcsfEvent` counterpart; it keeps
its default `NoChange`. -/
def compareEvent (a b : OcsfEvent) : Except String Diff := do
  let attrsDiff ← compare_dict cmpAttrEntry (fun m => .model (.attr m))
    (some a.attributes) (some b.attributes)
  let associationsDiff ← compare_dict (fun x y => .ok (cmpEq strListVal x y))
    (fun xs => .strList xs) a.associations b.associations
  let constraintsDiff ← compare_dict (fun x y => .ok (cmpEq strListVal x y))
    (fun xs => .strList xs) a.constraints b.constraints
  .ok (.changedEvent (cmpEq strVal a.caption b.caption)
    (cmpEq strVal a.name b.name)
    attrsDiff
    (cmpEq optStrVal a.description b.description)
    (cmpEq optIntVal a.uid b.uid)
    (cmpEq optStrVal a.category b.category)
    (cmpEq optStrVal a.ext b.ext)
    (cmpEq optStrListVal a.profiles b.profiles)
    associationsDiff
    constraintsDiff
    .noChange
    (cmpOptDep a.deprecated b.deprecated))

/-- The field walk for two `OcsfProfile` values. -/
def compareProfile (a b : OcsfProfile) : Except String Diff := do
  let attrsDiff ← compare_dict cmpAttrEntry (fun m => .model (.attr m))
    (some a.attributes) (some b.attributes)
  let annotationsDiff ← compare_dict (fun x y => .ok (cmpEq strVal x y))
    (fun s => .str s) a.annotations b.annotations
  .ok (.changedProfile (cmpEq strVal a.caption b.caption)
    (cmpEq strVal a.name b.name)
    (cmpEq strVal a.meta b.meta)
    (cmpEq optStrVal a.description b.description)
    attrsDiff
    (cmpOptDep a.deprecated b.deprecated)
    annotationsDiff)

/-- The field walk for two `OcsfExtension` values. -/
def compareExtension (a b : OcsfExtension) : Diff :=
  .changedExtension (cmpEq strVal a.name b.name)
    (cmpEq optStrVal a.version b.version)
    (cmpEq intVal a.uid b.uid)
    (cmpEq strVal a.caption b.caption)
    (cmpEq optStrVal a.description b.description)
    (cmpOptDep a.deprecated b.deprecated)

/-- `compare` on `OcsfSchema.base_event : Optional[OcsfEvent]`. -/
def cmpOptEvent : Option OcsfEvent → Option OcsfEvent → Except String Diff
  | some a, some b => compareEvent a b
  | Option.none, Option.none => .ok .noChange
  | a, b => .ok (.change
      (match a with | some x => .model (.event x) | Option.none => .none)
      (match b with | some x => .model (.event x) | Option.none => .none))

/-- `compare` on a category dictionary entry: `create_diff` has no
`ChangedModel` for `OcsfCategory` and raises `ValueError`. -/
def cmpCategoryEntry (_x _y : OcsfCategory) : Except String Diff :=
  .error "Unrecognized OCSF model type"

/-- The field walk for two `OcsfSchema` values.  The source field
`categories` is compared by the Python loop (and can raise through
`create_diff`), but `ChangedSchema` declares no `categories` slot, so
the value is stored as a dynamic attribute that equality ignores; the
model keeps the effect and drops the value. -/
def compareSchema (a b : OcsfSchema) : Except String Diff := do
  let classesDiff ← compare_dict (fun x y => compareEvent x y) (fun m => .model (.event m))
    (some a.classes) (some b.classes)
  let objectsDiff ← compare_dict (fun x y => compareObject x y) (fun m => .model (.object m))
    (some a.objects) (some b.objects)
  let typesDiff ← compare_dict (fun x y => .ok (compareType x y)) (fun m => .model (.type m))
    (some a.types) (some b.types)
  let baseEventDiff ← cmpOptEvent a.base_event b.base_event
  let profilesDiff ← compare_dict (fun x y => compareProfile x y) (fun m => .model (.profile m))
    a.profiles b.profiles
  let extensionsDiff ← compare_dict (fun x y => .ok (compareExtension x y))
    (fun m => .model (.extension m)) a.extensions b.extensions
  let _categoriesDiff ← compare_dict cmpCategoryEntry (fun m => .model (.category m))
    a.categories b.categories
  .ok (.changedSchema classesDiff objectsDiff (cmpEq strVal a.version b.version)
    typesDiff baseEventDiff profilesDiff extensionsDiff)

/-- `compare` on two models: same concrete type walks the fields
(`create_diff` raising for `OcsfCategory`); different concrete types
fall through to the primitive `==` rule, which yields `Change`. -/
def compareModels (m1 m2 : OcsfModelV) : Except String Diff :=
  match m1, m2 with
  | .version a, .version b => .ok (compareVersion a b)
  | .enumMember a, .enumMember b => .ok (compareEnumMember a b)
  | .deprecationInfo a, .deprecationInfo b => .ok (compareDeprecationInfo a b)
  | .type a, .type b => .ok (compareType a b)
  | .attr a, .attr b => compareAttr a b
  | .object a, .object b => compareObject a b
  | .event a, .event b => compareEvent a b
  | .profile a, .profile b => compareProfile a b
  | .extension a, .extension b => .ok (compareExtension a b)
  | .category _, .category _ => .error "Unrecognized OCSF model type"
  | .schema a, .schema b => compareSchema a b
  | a, b => .ok (if Value.model a = Value.model b then .noChange else .change (.model a) (.model b))

/-- `compare.py` `compare(old_val, new_val)`. -/
def compare (old new : Value) : Except String Diff :=
  match old, new with
  | .model m1, .model m2 => compareModels m1 m2
  | v1, v2 => .ok (if v1 = v2 then .noChange else .change v1 v2)

/-- Whether a value is one of the primitives (not an OCSF model). -/
def Value.isPrim : Value → Bool
  | .model _ => false
  | _ => true

mutual

/-- A diff that records no change anywhere: no `Addition`, `Removal` or
`Change` occurs in it. -/
def Diff.changeless : Diff → Bool
  | .noChange => true
  | .addition _ => false
  | .removal _ => false
  | .change _ _ => false
  | .dictDiff es => es.changelessE
  | .changedVersion a => a.changeless
  | .changedEnumMember a b c => a.changeless && b.changeless && c.changeless
  | .changedDeprecationInfo a b => a.changeless && b.changeless
  | .changedType a b c d e f g h i j k => a.changeless && b.changeless && c.changeless
      && d.changeless && e.changeless && f.changeless && g.changeless && h.changeless
      && i.changeless && j.changeless && k.changeless
  | .changedAttr a b c d e f g h i j k => a.changeless && b.changeless && c.changeless
      && d.changeless && e.changeless && f.changeless && g.changeless && h.changeless
      && i.changeless && j.changeless && k.changeless
  | .changedObject a b c d e f g h i => a.changeless && b.changeless && c.changeless
      && d.changeless && e.changeless && f.changeless && g.changeless && h.changeless
      && i.changeless
  | .changedEvent a b c d e f g h i j k l => a.changeless && b.changeless && c.changeless
      && d.changeless && e.changeless && f.changeless && g.changeless && h.changeless
      && i.changeless && j.changeless && k.changeless && l.changeless
  | .changedProfile a b c d e f g => a.changeless && b.changeless && c.changeless
      && d.changeless && e.changeless && f.changeless && g.changeless
  | .changedExtension a b c d e f => a.changeless && b.changeless && c.changeless
      && d.changeless && e.changeless && f.changeless
  | .changedSchema a b c d e f g => a.changeless && b.changeless && c.changeless
      && d.changeless && e.changeless && f.changeless && g.changeless

/-- All entries changeless. -/
def DiffEntries.changelessE : DiffEntries → Bool
  | .nil => true
  | .cons _ d rest => d.changeless && rest.changelessE

end

/-- Whether a key is bound in both dictionaries to unequal values —
the case in which `compare_dict` calls `compare` on the pair. -/
def clashAt {α : Type} [DecidableEq α] (old new : List (String × α)) (k : String) : Bool :=
  match old.lookup k, new.lookup k with
  | some v1, some v2 => v1 ≠ v2
  | _, _ => false

/-- Some key is shared by the two dictionaries with unequal values. -/
def dictClash {α : Type} [DecidableEq α] (old new : Option (List (String × α))) : Bool :=
  (unionKeys ((old.getD []).map Prod.fst) ((new.getD []).map Prod.fst)).any
    (clashAt (old.getD []) (new.getD []))

/-- Exactly when `compare` raises `ValueError`: two `OcsfCategory`
values (top level), or two `OcsfSchema` values whose `categories`
dictionaries share a key with unequal category values (reached through
`compare_dict`, which only calls `compare` on unequal pairs). -/
def compareRaises : Value → Value → Bool
  | .model (.category _), .model (.category _) => true
  | .model (.schema s1), .model (.schema s2) => dictClash s1.categories s2.categories
  | _, _ => false

/-- Whether two models are instances of the same concrete `OcsfModel`
subclass. -/
def OcsfModelV.sameKind : OcsfModelV → OcsfModelV → Bool
  | .version _, .version _ => true
  | .enumMember _, .enumMember _ => true
  | .deprecationInfo _, .deprecationInfo _ => true
  | .type _, .type _ => true
  | .attr _, .attr _ => true
  | .object _, .object _ => true
  | .event _, .event _ => true
  | .profile _, .profile _ => true
  | .extension _, .extension _ => true
  | .category _, .category _ => true
  | .schema _, .schema _ => true
  | _, _ => false

/-- Whether a comparison returned normally (`True`) or raised (`False`). -/
def diffOk : Except String Diff → Bool
  | .ok _ => true
  | .error _ => false

/-! ## JSON key renames (`ocsf/schema/json.py`)

`keys_to_names` renames the OCSF JSON property names `@deprecated` and
`$include` to the Python-friendly `deprecated` and `include_` inside a
parsed JSON dictionary, in place, recursing into dictionary values (and
only dictionary values — a dictionary inside a list is not visited).
`names_to_keys` is meant to be its inverse; its recursive branch tests
`isinstance(k, dict)` on the *key* `k`, which is always a string, so it
renames top-level keys only.  Parsed JSON objects are modelled by
`FieldVal` (`json.loads` produces no `part` values).

CPython notes reflected here: `keys_to_names` collects its renames
during the loop and applies them after it; `names_to_keys` inserts the
new key and deletes the old one between iterations (size returns to its
old value before the next `next()`, so no `RuntimeError`), the new key
is appended at the end of the iteration order and is visited later, and
no new key is itself renameable — so the net effect is the collected
renames applied in encounter order. -/

/-- Python `del d[key]`. -/
def Entries.delete (es : Entries) (k : String) : Entries :=
  match es with
  | .nil => .nil
  | .cons k' v rest => if k' = k then delete rest k else .cons k' v (delete rest k)

/-- `json.py` `_KEY_TRANSFORMS`. -/
def keyTransforms : List (String × String) :=
  [("@deprecated", "deprecated"), ("$include", "include_")]

/-- `json.py` `_NAME_TRANSFORMS`. -/
def nameTransforms : List (String × String) :=
  [("deprecated", "@deprecated"), ("include_", "$include")]

/-- The keys of a dictionary that a transform table renames, with their
new names, in encounter order (`ops` in `keys_to_names`). -/
def collectOps (transforms : List (String × String)) : Entries → List (String × String)
  | .nil => []
  | .cons k _ rest =>
    match transforms.lookup k with
    | some new => (k, new) :: collectOps transforms rest
    | Option.none => collectOps transforms rest

/-- `d[new] = d[old]; del d[old]`: overwrite `new` in place when it
exists, append it otherwise, then delete `old`. -/
def renameKey (d : Entries) (old new : String) : Entries :=
  match d.lookup old with
  | some v => (if (d.lookup new).isSome then d.set new v else d.append new v).delete old
  | Option.none => d

/-- Apply collected renames in order. -/
def applyRenames (d : Entries) : List (String × String) → Entries
  | [] => d
  | (old, new) :: rest => applyRenames (renameKey d old new) rest

mutual

/-- The `d[k] = keys_to_names(v)` recursion of `keys_to_names`: only
dictionary values are recursed into. -/
def keysToNamesVal : FieldVal → FieldVal
  | .dict es => .dict (applyRenames (keysToNamesVals es) (collectOps keyTransforms es))
  | v => v

/-- Recurse `keys_to_names` into every dictionary value of `es`. -/
def keysToNamesVals : Entries → Entries
  | .nil => .nil
  | .cons k v rest => .cons k (keysToNamesVal v) (keysToNamesVals rest)

end

/-- `json.py` `keys_to_names(d)`: recurse into dictionary values, then
apply the `@deprecated`/`$include` renames collected at this level.
The input dictionary is mutated in place and returned; the model
returns the mutated value. -/
def keys_to_names (es : Entries) : Entries :=
  applyRenames (keysToNamesVals es) (collectOps keyTransforms es)

/-- `json.py` `names_to_keys(d)`: rename `deprecated`/`include_` back to
`@deprecated`/`$include` — but only at the top level, because the
recursive branch tests `isinstance(k, dict)` on the string key `k` and
therefore never fires. -/
def names_to_keys (es : Entries) : Entries :=
  applyRenames es (collectOps nameTransforms es)

/-- The effect of `json.py` `from_dict(data, …)` on its `data` argument:
`dacite.from_dict(OcsfSchema, keys_to_names(data))` passes the caller's
dictionary to `keys_to_names`, which renames keys in place, so after the
call the caller's dictionary holds this value (`dacite` reads without
mutating). -/
def from_dict_arg (data : Entries) : Entries :=
  keys_to_names data

mutual

/-- No `@deprecated` or `$include` key occurs in this value at any
depth reachable through dictionary values. -/
def FieldVal.renamed : FieldVal → Bool
  | .dict es => es.renamedE
  | _ => true

/-- No `@deprecated`/`$include` key in this dictionary, recursively
through dictionary values. -/
def Entries.renamedE : Entries → Bool
  | .nil => true
  | .cons k v rest =>
    !(k = "@deprecated" || k = "$include") && v.renamed && rest.renamedE

end

/-- A key that `keys_to_names` renames. -/
def badKey (k : String) : Bool :=
  k = "@deprecated" || k = "$include"

/-- No renameable key at the top level of this dictionary. -/
def noBadKeysTop : Entries → Bool
  | .nil => true
  | .cons k _ rest => !badKey k && noBadKeysTop rest

/-- Every value of this dictionary is free of renameable keys at any
dictionary-reachable depth (the keys of this level are not examined). -/
def entriesValuesRenamed : Entries → Bool
  | .nil => true
  | .cons _ v rest => v.renamed && entriesValuesRenamed rest

/-- A rename table whose sources are renameable keys and whose targets
are not (as `_KEY_TRANSFORMS` is). -/
def goodOps (ops : List (String × String)) : Bool :=
  ops.all fun p => badKey p.1 && !badKey p.2

/-! ## Compilation-plan ordering (`ocsf/compile/compiler.py`)

`Compilation.order` flattens the per-phase `FileOperations` dictionaries
into one operation list: within a phase, a depth-first `follow` visits a
path's declared prerequisite path before appending the path's own
operations, guarding against revisits with a `planned` set.

The Python `follow` has no fuel; it terminates because `planned` grows.
The model drives the traversal with explicit fuel exceeding what it can
consume. -/

/-- `planners/planner.py` `Operation`: a frozen dataclass with a target
path and an optional prerequisite path.  `id` stands for the concrete
`Operation` subclass and payload, which distinguish operation instances
under Python `==`. -/
structure Operation where
  target : String
  prerequisite : Option String := Option.none
  id : Nat := 0
deriving DecidableEq, Repr

/-- One phase of `CompilationOperations`: a `FileOperations` dictionary
mapping each target path to its operations, in insertion order. -/
abbrev FileOperations := List (String × List Operation)

/-- The traversal state of `Compilation.order`: the `planned` set and
the `plan` list accumulated so far. -/
abbrev OrderState := List String × List Operation

/-- A pending step of the depth-first traversal: visit a path, or run
the remainder of a path's operation list. -/
inductive FollowTask where
  | path (p : String)
  | ops (ops : List Operation)
deriving DecidableEq, Repr

/-- `Compilation.order`'s inner `follow(path, phase, planned)` together
with its `for op in phase[path]` loop, driven by explicit fuel (each
call consumes one unit; `follow` supplies `phaseFuel`, which exceeds
what the traversal can consume, so the `0` branch is never taken on a
real run). -/
def followGo (phase : FileOperations) : Nat → FollowTask → OrderState → OrderState
  | 0, _, st => st
  | fuel + 1, .path p, st =>
    if st.1.contains p || (phase.lookup p).isNone then
      st
    else
      followGo phase fuel (.ops ((phase.lookup p).getD [])) (p :: st.1, st.2)
  | _ + 1, .ops [], st => st
  | fuel + 1, .ops (op :: ops), st =>
    let st1 := match op.prerequisite with
      | some q => if st.1.contains q then st else followGo phase fuel (.path q) st
      | Option.none => st
    followGo phase fuel (.ops ops) (st1.1, st1.2 ++ [op])

/-- An upper bound on the depth of `follow`'s recursion within one
phase: every visited path is marked planned before recursing (so at
most `phase.length` path frames open), and each open path frame
contributes at most its operation count of loop frames. -/
def phaseFuel (phase : FileOperations) : Nat :=
  phase.length + (phase.map (fun e => e.2.length)).sum + 1

/-- `Compilation.order`'s `follow(path, phase, planned)`. -/
def follow (phase : FileOperations) (path : String) (st : OrderState) : OrderState :=
  followGo phase (phaseFuel phase) (.path path) st

/-- One phase of `Compilation.order`: reset `planned`, then `follow`
each path of the phase in insertion order, appending to the running
plan. -/
def orderPhase (phase : FileOperations) (plan : List Operation) : List Operation :=
  (phase.foldl (fun st e => follow phase e.1 st) ([], plan)).2

/-- `Compilation.order(operations)`: flatten all phases into one
ordered `CompilationPlan`. -/
def order (operations : List FileOperations) : List Operation :=
  operations.foldl (fun plan phase => orderPhase phase plan) []

/-! ## Well-formedness predicates for parts -/

mutual

/-- Well-formedness of a field value as Python produces it: every
dictionary (and dataclass field table) has unique keys. -/
def FieldVal.wf : FieldVal → Bool
  | .list xs => xs.wfList
  | .dict es => es.wfEntries
  | .part fs => fs.wfEntries
  | _ => true

/-- Well-formedness of a list of field values. -/
def VList.wfList : VList → Bool
  | .nil => true
  | .cons x xs => x.wf && xs.wfList

/-- Well-formedness of an association list: keys are unique at this
level and all values are well-formed. -/
def Entries.wfEntries : Entries → Bool
  | .nil => true
  | .cons k v rest => !(rest.lookup k).isSome && v.wf && rest.wfEntries

end

mutual

/-- A field value containing no Python list anywhere. -/
def FieldVal.listFree : FieldVal → Bool
  | .list _ => false
  | .dict es => es.entriesListFree
  | .part fs => fs.entriesListFree
  | _ => true

/-- An association list whose values contain no Python list. -/
def Entries.entriesListFree : Entries → Bool
  | .nil => true
  | .cons _ v rest => v.listFree && rest.entriesListFree

end

mutual

/-- Every field of a part holds a non-`None` value, recursively (the
sense in which a record's fields are "fully populated"). -/
def FieldVal.populated : FieldVal → Bool
  | .none => false
  | .dict es => es.entriesPopulated
  | .part fs => fs.entriesPopulated
  | _ => true

/-- All values of an association list are populated. -/
def Entries.entriesPopulated : Entries → Bool
  | .nil => true
  | .cons _ v rest => v.populated && rest.entriesPopulated

end

/-! ## UID synthesis (`ocsf/compile/planners/uid.py`)

`UidOp.apply` reads the target event definition, the category list and
(for extension-introduced events) the extension definition, builds an
`enums` event fragment holding the synthesized `uid`, `category_uid`,
`class_uid` and `type_uid` attributes, and merges it into the target
with `overwrite=True` under an `allowed_fields` gate.  Definition
records are the same reflective `Part` values the merge operates on;
`isinstance` checks on definition dataclasses are modelled by the
`DefnKind` tag of a file (for `DefinitionData`) or by the `FieldVal.part`
constructor (for parts inside attribute dictionaries).  Failures
(`assert`, `KeyError`, `ValueError`) are `Except.error`. -/

/-- The concrete `DefinitionData` subclass of a repository file. -/
inductive DefnKind where
  | event
  | object
  | profile
  | extn
  | categories
  | dictionary
  | version
  | other
deriving DecidableEq, Repr

/-- `repository.py` `DefinitionFile`: a path, the parsed definition
(`None` when absent) and its concrete dataclass. -/
structure DefinitionFile where
  path : String
  kind : DefnKind
  data : Option Part
deriving DecidableEq, Repr

/-- A repository / working schema, path-keyed.  `ProtoSchema.__getitem__`
returns the (lazily deep-copied) record for a path; at value level that
record equals the repository's, so lookups read the repository directly
here (the copy-on-first-access aliasing discipline is modelled
separately, see `ProtoState`). -/
abbrev Schema := List DefinitionFile

/-- `schema[path]` lookup. -/
def schemaGet (s : Schema) (path : String) : Option DefinitionFile :=
  s.find? (fun f => f.path = path)

/-- Character-list prefix test (`str.startswith`). -/
def charsPrefix : List Char → List Char → Bool
  | [], _ => true
  | _ :: _, [] => false
  | c :: cs, d :: ds => c = d && charsPrefix cs ds

/-- `str.startswith(pre)` over the underlying characters. -/
def strStartsWith (s pre : String) : Bool :=
  charsPrefix pre.data s.data

/-- Split a character list at `/` (`str.split("/")`). -/
def splitSlash : List Char → List Char → List String
  | [], acc => [⟨acc.reverse⟩]
  | c :: rest, acc =>
    if c = '/' then ⟨acc.reverse⟩ :: splitSlash rest [] else splitSlash rest (c :: acc)

/-- `path.split("/")`. -/
def strSplitSlash (s : String) : List String :=
  splitSlash s.data []

/-- `Repository.extensions()`: the extension directory names, i.e. the
second path component of every path under `extensions/`.  CPython
iterates them as a set in unspecified order; first-occurrence order is
used here. -/
def repoExtensions (s : Schema) : List String :=
  (s.filterMap (fun f =>
    if strStartsWith f.path "extensions/" then (strSplitSlash f.path)[1]? else Option.none)).eraseDups

/-- `as_path(RepoPaths.EXTENSIONS, extn_dir, SpecialFiles.EXTENSION)`. -/
def extensionJsonPath (extnDir : String) : String :=
  "extensions/" ++ extnDir ++ "/extension.json"

/-- `uid.py` `_find_extn_path`: resolve an event's `src_extension` name
to an extension directory, matching the directory name first and the
`extension.json` `name` field second. -/
def findExtnPath (s : Schema) (target : String) : Except String (Option String) :=
  go (repoExtensions s)
where
  go : List String → Except String (Option String)
    | [] => .ok Option.none
    | d :: ds =>
      if d = target then
        .ok (some d)
      else
        match schemaGet s (extensionJsonPath d) with
        | Option.none => .error "KeyError"
        | some f =>
          if f.kind = .extn then
            match f.data.bind (fun p => p.lookup "name") with
            | some (.str n) => if n = target then .ok (some d) else go ds
            | _ => go ds
          else
            .error "AssertionError: not an ExtensionDefn"

/-- Python `str(...)` of a field value, as an f-string renders it. -/
def pyStr : FieldVal → String
  | .str s => s
  | .int i => toString i
  | .bool b => if b then "True" else "False"
  | .none => "None"
  | _ => "<object>"

/-- Decimal digit value of a character. -/
def pyDigit (c : Char) : Option Nat :=
  if c = '0' then some 0 else if c = '1' then some 1 else if c = '2' then some 2
  else if c = '3' then some 3 else if c = '4' then some 4 else if c = '5' then some 5
  else if c = '6' then some 6 else if c = '7' then some 7 else if c = '8' then some 8
  else if c = '9' then some 9 else Option.none

/-- Accumulate a digit string's value. -/
def pyDigits (acc : Nat) : List Char → Option Nat
  | [] => some acc
  | c :: cs =>
    match pyDigit c with
    | some d => pyDigits (acc * 10 + d) cs
    | Option.none => Option.none

/-- Python `int(key)` over an enum key string: the digit-string subset
of `int()` (the UID enum keys are decimal literals); anything else
raises `ValueError`. -/
def pyInt (s : String) : Except String Int :=
  match s.data with
  | [] => .error "ValueError: invalid literal for int"
  | '-' :: rest =>
    match rest, pyDigits 0 rest with
    | _ :: _, some n => .ok (-(n : Int))
    | _, _ => .error "ValueError: invalid literal for int"
  | cs =>
    match pyDigits 0 cs with
    | some n => .ok (n : Int)
    | Option.none => .error "ValueError: invalid literal for int"

/-- `EnumMemberDefn(caption=…, description=…)` as a `Part` (field order
as declared in `repository/definitions.py`). -/
def mkEnumMemberDefn (caption description : FieldVal) : Part :=
  .ofList [("caption", caption), ("description", description), ("notes", .none)]

/-- `AttrDefn()` with only `enum` set, as built by `UidOp.apply`. -/
def mkAttrDefnEnum (enumEntries : Entries) : Part :=
  .ofList [("caption", .none), ("requirement", .none), ("type", .none),
    ("description", .none), ("is_array", .none), ("deprecated", .none),
    ("enum", .dict enumEntries), ("group", .none), ("observable", .none),
    ("profile", .none), ("sibling", .none), ("object_type", .none),
    ("object_name", .none)]

/-- `EventDefn()` — every field `None` (field order as declared). -/
def emptyEventDefn : Part :=
  .ofList [("caption", .none), ("name", .none), ("attributes", .none),
    ("description", .none), ("uid", .none), ("category", .none),
    ("extends", .none), ("profiles", .none), ("associations", .none),
    ("constraints", .none), ("deprecated", .none), ("include_", .none),
    ("src_extension", .none), ("key", .none)]

/-- The `allowed_fields` gate of `UidOp.apply`'s final merge. -/
def uidAllowedFields : List FieldSel :=
  [.path ["uid"], .path ["attributes", "category_uid"],
   .path ["attributes", "class_uid"], .path ["attributes", "type_uid"]]

/-- The `for key, value in …["activity_id"].enum.items()` loop: build
the `type_uid` enum entries. -/
def typeUidEnum (classUid : Int) (eventCaption : String)
    : Entries → Except String Entries
  | .nil => .ok .nil
  | .cons key value rest => do
    let k ← pyInt key
    let typeUid := classUid * 100 + k
    let caption := match value with
      | .part fields => (fields.lookup "caption").getD .none
      | _ => .none
    let description := match value with
      | .part fields => (fields.lookup "description").getD .none
      | _ => .none
    let tail ← typeUidEnum classUid eventCaption rest
    .ok (.cons (toString typeUid)
      (.part (mkEnumMemberDefn (.str (eventCaption ++ ": " ++ pyStr caption)) description))
      tail)

/-- `defn.attributes[k].enum = {}` for an inherited UID attribute, when
present (`UidOp.apply`'s "remove any enum members that were inherited
from base_event" step). -/
def clearInheritedEnum (attrs : Entries) (k : String) : Entries :=
  match attrs.lookup k with
  | some (.part fields) => attrs.set k (.part (fields.set "enum" (.dict .nil)))
  | _ => attrs

/-- `uid.py` `UidOp.apply(schema)`: returns the updated target event
record together with the merge's changed-path list. -/
def uidApply (s : Schema) (target : String) : Except String (Part × MergeResult) := do
  let file ← match schemaGet s target with
    | some f => .ok f
    | Option.none => .error "KeyError"
  let defn ← match file.data with
    | some d => .ok d
    | Option.none => .error "AssertionError: data is None"
  if file.kind ≠ .event then
    .error "AssertionError: not an EventDefn"
  else do
  -- Find the extension UID, if there is one
  let extnUid ← match defn.lookup "src_extension" with
    | some (.str srcx) => do
      let dir ← findExtnPath s srcx
      match dir with
      | Option.none => .error "ValueError: Extension not found"
      | some d =>
        match schemaGet s (extensionJsonPath d) with
        | Option.none => .error "KeyError"
        | some f =>
          if f.kind = .extn then
            match f.data.bind (fun p => p.lookup "uid") with
            | some (.int u) => .ok u
            | _ => .ok 0
          else
            .error "AssertionError: not an ExtensionDefn"
    | _ => .ok (0 : Int)
  -- Find the category UID and build the category_uid enum;
  -- `if cats.attributes is None: return []` is the early-return case
  let catStep ← match defn.lookup "category" with
    | some (.str c) => do
      let cats ← match schemaGet s "categories.json" with
        | some f => .ok f
        | Option.none => .error "KeyError"
      let catsData ← match cats.data with
        | some d => .ok d
        | Option.none => .error "AssertionError"
      if cats.kind ≠ .categories then
        .error "AssertionError: not a CategoriesDefn"
      else
        match catsData.lookup "attributes" with
        | some (.dict attrs) =>
          match attrs.lookup c with
          | some (.part cat) =>
            match cat.lookup "uid" with
            | some (.int cu) =>
              .ok (some (cu,
                Entries.cons "category_uid"
                  (.part (mkAttrDefnEnum (.cons (toString cu)
                    (.part (mkEnumMemberDefn ((cat.lookup "caption").getD .none)
                      ((cat.lookup "description").getD .none))) .nil)))
                  .nil))
            | _ => .error "AssertionError: category uid is None"
          | _ => .ok (some ((0 : Int), Entries.nil))
        | _ => .ok Option.none  -- cats.attributes is None: return []
    | _ => .ok (some ((0 : Int), Entries.nil))
  match catStep with
  | Option.none => .ok (defn, [])  -- the early `return []`
  | some (catUid, catAttrs) => do
    -- Calculate the class UID and build the class_uid enum
    let (classUid, uidField) : Int × FieldVal := match defn.lookup "uid" with
      | some (.int u) => (extnUid * 100000 + catUid * 1000 + u,
          .int (extnUid * 100000 + catUid * 1000 + u))
      | _ =>
        if defn.lookup "name" = some (.str "base_event") then ((0 : Int), .int 0)
        else ((0 : Int), .none)
    let classAttr := mkAttrDefnEnum (.cons (toString classUid)
      (.part (mkEnumMemberDefn ((defn.lookup "caption").getD .none)
        ((defn.lookup "description").getD .none))) .nil)
    -- Build the type_uid enum from activity_id
    let typeAttrs ← match defn.lookup "attributes" with
      | some (.dict attrs) =>
        match attrs.lookup "activity_id" with
        | some (.part aattr) =>
          match aattr.lookup "enum" with
          | some (.dict entries) => do
            let es ← typeUidEnum classUid (pyStr ((defn.lookup "caption").getD .none)) entries
            .ok (Entries.cons "type_uid" (.part (mkAttrDefnEnum es)) .nil)
          | _ => .ok Entries.nil
        | _ => .ok Entries.nil
      | _ => .ok Entries.nil
    -- enums = EventDefn() with uid and the attributes dictionary
    let enumAttrs : Entries := Entries.cons "class_uid" (.part classAttr) typeAttrs
    let enumAttrs := match catAttrs with
      | .nil => enumAttrs
      | .cons k v _ => .cons k v enumAttrs
    let enums := (emptyEventDefn.set "attributes" (.dict enumAttrs)).set "uid" uidField
    -- Remove any enum members inherited from base_event
    let defn :=
      if defn.lookup "name" ≠ some (.str "base_event") then
        match defn.lookup "attributes" with
        | some (.dict attrs) =>
          defn.set "attributes" (.dict (clearInheritedEnum
            (clearInheritedEnum (clearInheritedEnum attrs "class_uid") "category_uid")
            "type_uid"))
        | _ => defn
      else defn
    .ok (merge defn enums (some true) (some uidAllowedFields))


/-- `create_diff(model)` (`compare/factory.py`): the empty
`ChangedModel` matching a model's concrete type — every slot at its
declared default (`NoChange`, or the empty dictionary for dict-typed
slots) — raising `ValueError` for an unrecognized type, which is what
`OcsfCategory` hits. -/
def create_diff : OcsfModelV → Except String Diff
  | .schema _ => .ok (.changedSchema (.dictDiff .nil) (.dictDiff .nil) .noChange
      (.dictDiff .nil) .noChange (.dictDiff .nil) (.dictDiff .nil))
  | .event _ => .ok (.changedEvent .noChange .noChange (.dictDiff .nil) .noChange .noChange
      .noChange .noChange .noChange (.dictDiff .nil) (.dictDiff .nil) .noChange .noChange)
  | .object _ => .ok (.changedObject .noChange .noChange (.dictDiff .nil) .noChange .noChange
      .noChange .noChange (.dictDiff .nil) .noChange)
  | .attr _ => .ok (.changedAttr .noChange .noChange .noChange .noChange .noChange .noChange
      .noChange .noChange .noChange .noChange .noChange)
  | .deprecationInfo _ => .ok (.changedDeprecationInfo .noChange .noChange)
  | .version _ => .ok (.changedVersion .noChange)
  | .enumMember _ => .ok (.changedEnumMember .noChange .noChange .noChange)
  | .extension _ => .ok (.changedExtension .noChange .noChange .noChange .noChange .noChange
      .noChange)
  | .profile _ => .ok (.changedProfile .noChange .noChange .noChange .noChange (.dictDiff .nil)
      .noChange (.dictDiff .nil))
  | .type _ => .ok (.changedType .noChange .noChange .noChange .noChange .noChange .noChange
      .noChange .noChange .noChange .noChange .noChange)
  | .category _ => .error "Unrecognized OCSF model type"

/-- The declared field names of `OcsfAttr`, in declaration order
(`ocsf/schema/model.py`). -/
def OcsfAttr.fieldNames : List String :=
  ["caption", "type", "requirement", "description", "is_array", "deprecated", "enum",
   "group", "observable", "profile", "sibling", "object_type", "object_name", "type_name"]

/-- The declared field names of `ChangedAttr` (`ocsf/compare/model.py`). -/
def ChangedAttr.fieldNames : List String :=
  ["caption", "description", "requirement", "type", "is_array", "enum", "group",
   "observable", "sibling", "profile", "deprecated"]

/-- The declared field names of `OcsfSchema` (`ocsf/schema/model.py`). -/
def OcsfSchema.fieldNames : List String :=
  ["version", "classes", "objects", "types", "base_event", "profiles", "extensions",
   "categories"]

/-- The declared field names of `ChangedSchema` (`ocsf/compare/model.py`). -/
def ChangedSchema.fieldNames : List String :=
  ["classes", "objects", "version", "types", "base_event", "profiles", "extensions"]

/-- The declared field names of `OcsfEvent` (`ocsf/schema/model.py`). -/
def OcsfEvent.fieldNames : List String :=
  ["caption", "name", "attributes", "description", "uid", "category", "extends",
   "profiles", "associations", "constraints", "deprecated"]

/-- The declared field names of `ChangedEvent` (`ocsf/compare/model.py`). -/
def ChangedEvent.fieldNames : List String :=
  ["caption", "name", "attributes", "description", "uid", "category", "extends",
   "profiles", "associations", "constraints", "include", "deprecated"]

/-! ## The working-schema overlay (`ocsf/compile/protoschema.py`)

`ProtoSchema.__getitem__` deep-copies a repository record into the
`_files` overlay on first access; operations then mutate the overlay
copy.  Whether the repository can be touched at all is a question of
object identity, so this model makes identity explicit: records live in
a store at numeric addresses, the repository and the overlay map paths
to addresses, and a deep copy allocates a fresh address holding the
same value. -/

/-- The heap-level state of a `ProtoSchema`: `repo` is the backing
repository's path→record binding (never reassigned by the class),
`files` the `_files` overlay, `store` the object heap, `next` the next
fresh address. -/
structure ProtoState where
  repo : List (String × Nat)
  files : List (String × Nat)
  store : List (Nat × Part)
  next : Nat

/-- Heap update at an address. -/
def storeSet (store : List (Nat × Part)) (a : Nat) (p : Part) : List (Nat × Part) :=
  store.map (fun e => if e.1 = a then (a, p) else e)

/-- `files[path] = addr`: overwrite in place or append. -/
def filesSet (files : List (String × Nat)) (p : String) (a : Nat) : List (String × Nat) :=
  if (files.lookup p).isSome then
    files.map (fun e => if e.1 = p then (p, a) else e)
  else
    files ++ [(p, a)]

/-- `ProtoSchema.__getitem__`: if the path is not yet in the overlay,
deep-copy the repository's record into a fresh address (`deepcopy`);
a path in neither raises `KeyError` (modelled as no state change). -/
def doGet (s : ProtoState) (path : String) : ProtoState :=
  if (s.files.lookup path).isSome then
    s
  else
    match s.repo.lookup path with
    | some a =>
      { s with files := s.files ++ [(path, s.next)],
               store := s.store ++ [(s.next, ((s.store.lookup a).getD .nil))],
               next := s.next + 1 }
    | Option.none => s

/-- What compiler code does to a `ProtoSchema` during `compile()`:
read a path (`schema[path]`), bind a record object (`schema[path] =
file`, always a freshly built or deep-copied object at its call sites),
or mutate the record at a path in place after reading it (every
`Operation.apply`). -/
inductive ProtoStep where
  | getitem (path : String)
  | setitem (path : String) (value : Part)
  | modify (path : String) (f : Part → Part)

/-- One step against the overlay. -/
def applyStep (s : ProtoState) : ProtoStep → ProtoState
  | .getitem p => doGet s p
  | .setitem p v =>
    { s with files := filesSet s.files p s.next,
             store := s.store ++ [(s.next, v)],
             next := s.next + 1 }
  | .modify p f =>
    let s1 := doGet s p
    match s1.files.lookup p with
    | some a => { s1 with store := storeSet s1.store a (f (((s1.store.lookup a)).getD .nil)) }
    | Option.none => s1

/-- Run a compilation's accesses in order. -/
def runSteps (steps : List ProtoStep) (s : ProtoState) : ProtoState :=
  steps.foldl applyStep s

/-- `IncludePlanner.analyze` (`ocsf/compile/planners/include.py`) and
its effect on the `DefinitionFile` it is handed: for a definition with
root `$include` support it reads `include_` and then sets
`input.data.include_ = None`; for a definition with attributes it also
deletes an `"include_"` key from the attributes dictionary.  The
compiler calls `analyze` on the files of `self._repo` directly
(`compiler.py`, `Compilation.analyze`), so `input.data` is the backing
repository's own record, not an overlay copy. -/
def includeAnalyzeData (data : Part) : Part :=
  let d1 :=
    match data.lookup "include_" with
    | some v => if v ≠ .none then data.set "include_" .none else data
    | Option.none => data
  match d1.lookup "attributes" with
  | some (.dict attrs) =>
    if (attrs.lookup "include_").isSome then
      d1.set "attributes" (.dict (attrs.delete "include_"))
    else
      d1
  | _ => d1

/-! ## Concrete program inputs used in the verification -/

/-- A fully populated record with a duplicated list element: `caption`
set and `profiles = ["a", "a"]`. -/
def populatedSelf : Part :=
  .ofList [("caption", .str "x"),
           ("profiles", .list (VList.ofList [.str "a", .str "a"]))]

/-- A record whose `attrs` dictionary holds a scalar under key `a`. -/
def allowedNestedLeft : Part :=
  .ofList [("attrs", .dict (.ofList [("a", .int 1)]))]

/-- The same shape with a different scalar under `attrs.a`. -/
def allowedNestedRight : Part :=
  .ofList [("attrs", .dict (.ofList [("a", .int 2)]))]

/-- The six insertion orders of a phase holding `a : Operation` on
`pa` with no prerequisite and `b`, `c` on `pb`, `pc`, each with
prerequisite `pa`. -/
def c5Phases (pa pb pc : String) (ia ib ic : Nat) : List FileOperations :=
  let a : Operation := ⟨pa, Option.none, ia⟩
  let b : Operation := ⟨pb, some pa, ib⟩
  let c : Operation := ⟨pc, some pa, ic⟩
  [[(pa, [a]), (pb, [b]), (pc, [c])],
   [(pa, [a]), (pc, [c]), (pb, [b])],
   [(pb, [b]), (pa, [a]), (pc, [c])],
   [(pb, [b]), (pc, [c]), (pa, [a])],
   [(pc, [c]), (pa, [a]), (pb, [b])],
   [(pc, [c]), (pb, [b]), (pa, [a])]]

/-- An `EventDefn` repository record for an event named `stuff` in
category `network`, with `uid = u`, an `activity_id` enum with keys
`"1"` and `"2"`, and the given `src_extension` field (field order as
declared in `repository/definitions.py`). -/
def c6EventDefn (u : Int) (cap a1 a2 : String) (srcx : FieldVal) : Part :=
  .ofList [("caption", .str cap), ("name", .str "stuff"),
    ("attributes", .dict (.ofList [("activity_id", .part (mkAttrDefnEnum (.ofList
      [("1", .part (mkEnumMemberDefn (.str a1) .none)),
       ("2", .part (mkEnumMemberDefn (.str a2) .none))])))])),
    ("description", .none), ("uid", .int u), ("category", .str "network"),
    ("extends", .none), ("profiles", .none), ("associations", .none),
    ("constraints", .none), ("deprecated", .none), ("include_", .none),
    ("src_extension", srcx), ("key", .none)]

/-- A `CategoriesDefn` record with a single `network` category of uid
`c`. -/
def c6Categories (c : Int) (catCap : String) : Part :=
  .ofList [("attributes", .dict (.ofList [("network", .part (.ofList
      [("caption", .str catCap), ("description", .none), ("uid", .int c),
       ("type", .none)]))])),
    ("caption", .none), ("description", .none), ("name", .none)]

/-- An `ExtensionDefn` record named `win` with uid `e`. -/
def c6ExtnDefn (e : Int) : Part :=
  .ofList [("name", .str "win"), ("uid", .int e), ("caption", .str "Windows"),
    ("version", .none), ("description", .none), ("deprecated", .none)]

/-- A repository holding the `win` extension, the `stuff` event
(introduced by that extension) and the category file. -/
def c6Repo (u c e : Int) (cap catCap a1 a2 : String) : Schema :=
  [⟨"extensions/win/extension.json", .extn, some (c6ExtnDefn e)⟩,
   ⟨"events/stuff.json", .event, some (c6EventDefn u cap a1 a2 (.str "win"))⟩,
   ⟨"categories.json", .categories, some (c6Categories c catCap)⟩]

/-- The same repository without the extension: the event is not
extension-introduced (`src_extension` is `None`). -/
def c6RepoNoExt (u c : Int) (cap catCap a1 a2 : String) : Schema :=
  [⟨"events/stuff.json", .event, some (c6EventDefn u cap a1 a2 .none)⟩,
   ⟨"categories.json", .categories, some (c6Categories c catCap)⟩]

/-- The `type_uid` attribute fragment `UidOp.apply` synthesizes for the
`stuff` event. -/
def c6TypeUidAttr (classUid : Int) (cap a1 a2 : String) : FieldVal :=
  .part (mkAttrDefnEnum (.ofList
    [(toString (classUid * 100 + 1),
      .part (mkEnumMemberDefn (.str (cap ++ ": " ++ a1)) .none)),
     (toString (classUid * 100 + 2),
      .part (mkEnumMemberDefn (.str (cap ++ ": " ++ a2)) .none))]))

/-- The `enums` fragment `UidOp.apply` builds for the `stuff` event
(an `EventDefn` holding `uid` and the `category_uid`, `class_uid` and
`type_uid` attributes) when the class uid works out to `classUid`. -/
def c6Enums (uidv : FieldVal) (classUid c : Int) (cap catCap a1 a2 : String) : Part :=
  (emptyEventDefn.set "attributes" (.dict
    (.cons "category_uid" (.part (mkAttrDefnEnum (.cons (toString c)
        (.part (mkEnumMemberDefn (.str catCap) .none)) .nil)))
      (.cons "class_uid" (.part (mkAttrDefnEnum (.cons (toString classUid)
        (.part (mkEnumMemberDefn (.str cap) .none)) .nil)))
        (.cons "type_uid" (.part (mkAttrDefnEnum
          (.cons (toString (classUid * 100 + (1 : Int)))
            (.part (mkEnumMemberDefn (.str (cap ++ ": " ++ a1)) .none))
          (.cons (toString (classUid * 100 + (2 : Int)))
            (.part (mkEnumMemberDefn (.str (cap ++ ": " ++ a2)) .none)) .nil))))
          .nil))))).set "uid" uidv

/-- The expected result of `UidOp.apply` on the `stuff` event when the
class uid works out to `classUid`: the event record with the three UID
attributes appended and `uid` overwritten, and the four assigned
paths. -/
def c6Expected (u : Int) (cap a1 a2 : String) (srcx : FieldVal)
    (classUid c : Int) (catCap : String) : Part × MergeResult :=
  (.ofList [("caption", .str cap), ("name", .str "stuff"),
    ("attributes", .dict (.ofList
      [("activity_id", .part (mkAttrDefnEnum (.ofList
          [("1", .part (mkEnumMemberDefn (.str a1) .none)),
           ("2", .part (mkEnumMemberDefn (.str a2) .none))]))),
       ("category_uid", .part (mkAttrDefnEnum (.ofList
          [(toString c, .part (mkEnumMemberDefn (.str catCap) .none))]))),
       ("class_uid", .part (mkAttrDefnEnum (.ofList
          [(toString classUid, .part (mkEnumMemberDefn (.str cap) .none))]))),
       ("type_uid", c6TypeUidAttr classUid cap a1 a2)])),
    ("description", .none), ("uid", .int classUid), ("category", .str "network"),
    ("extends", .none), ("profiles", .none), ("associations", .none),
    ("constraints", .none), ("deprecated", .none), ("include_", .none),
    ("src_extension", srcx), ("key", .none)],
   [["attributes", "category_uid"], ["attributes", "class_uid"],
    ["attributes", "type_uid"], ["uid"]])

/-- A repository-owned event record carrying both a root `include_`
and an `attributes.include_` entry. -/
def includeInput : Part :=
  .ofList [("caption", .str "c"), ("include_", .str "x.json"),
    ("attributes", .dict (.ofList [("include_", .str "y.json"),
      ("other", .part (.ofList [("caption", .str "o")]))]))]

/-- `test_key_xforms.py`'s `test_names_to_keys` input: in-memory names
`deprecated` at the top level and `include_` nested under `baz`. -/
def kxNamesData : Entries :=
  .ofList [("foo", .str "bar"),
    ("deprecated", .dict (.ofList [("since", .str "blah"), ("message", .str "meh")])),
    ("baz", .dict (.ofList [("qux", .str "quux"), ("include_", .str "grault")]))]

/-- `test_key_xforms.py`'s `test_keys_to_names` input: JSON keys
`@deprecated` at the top level and `$include` nested under `baz`. -/
def kxKeysData : Entries :=
  .ofList [("foo", .str "bar"),
    ("@deprecated", .dict (.ofList [("since", .str "blah"), ("message", .str "meh")])),
    ("baz", .dict (.ofList [("qux", .str "quux"), ("$include", .str "grault")]))]

/-- A dictionary whose only renameable key sits inside a dictionary
that is an element of a list. -/
def listNestedKeys : Entries :=
  .ofList [("a", .list (VList.ofList [.dict (.ofList [("@deprecated", .str "d")])]))]

/-! ## General lemmas -/

theorem Entries.lookup_cons_self (k : String) (v : FieldVal) (rest : Entries) :
    (Entries.cons k v rest).lookup k = some v := by
  simp [Entries.lookup]

theorem Entries.wfEntries_cons {k : String} {v : FieldVal} {rest : Entries}
    (h : (Entries.cons k v rest).wfEntries = true) :
    (rest.lookup k).isSome = false ∧ v.wf = true ∧ rest.wfEntries = true := by
  simp only [Entries.wfEntries, Bool.and_eq_true, Bool.not_eq_true'] at h
  tauto

theorem Entries.entriesListFree_cons {k : String} {v : FieldVal} {rest : Entries}
    (h : (Entries.cons k v rest).entriesListFree = true) :
    v.listFree = true ∧ rest.entriesListFree = true := by
  simp only [Entries.entriesListFree, Bool.and_eq_true] at h
  exact h

theorem Entries.set_absent (es : Entries) (k : String) (v : FieldVal)
    (h : es.lookup k = Option.none) : es.set k v = es :=
  match es with
  | .nil => by simp [Entries.set]
  | .cons k' v' rest => by
    simp only [Entries.lookup] at h
    by_cases hk : k' = k
    · simp [hk] at h
    · simp only [Entries.set, if_neg hk]
      rw [Entries.set_absent rest k v (by simpa [hk] using h)]

theorem Entries.set_self (es : Entries) (k : String) (v : FieldVal)
    (hwf : es.wfEntries = true) (h : es.lookup k = some v) : es.set k v = es :=
  match es with
  | .nil => by simp [Entries.lookup] at h
  | .cons k' v' rest => by
    obtain ⟨habs, hvwf, hrest⟩ := Entries.wfEntries_cons hwf
    simp only [Entries.lookup] at h
    by_cases hk : k' = k
    · have hv : v' = v := by simpa [if_pos hk] using h
      have habs' : rest.lookup k = Option.none := by
        rw [← hk]
        cases hcl : rest.lookup k' <;> simp [hcl] at habs ⊢
      simp [Entries.set, if_pos hk, hv, Entries.set_absent rest k v habs']
    · simp only [if_neg hk] at h
      simp only [Entries.set, if_neg hk]
      rw [Entries.set_self rest k v hrest h]

theorem Entries.wf_lookup (es : Entries) (k : String) (v : FieldVal)
    (hwf : es.wfEntries = true) (h : es.lookup k = some v) : v.wf = true :=
  match es with
  | .nil => by simp [Entries.lookup] at h
  | .cons k' v' rest => by
    obtain ⟨_, hvwf, hrest⟩ := Entries.wfEntries_cons hwf
    simp only [Entries.lookup] at h
    by_cases hk : k' = k
    · simp [hk] at h
      subst h
      exact hvwf
    · simp [hk] at h
      exact Entries.wf_lookup rest k v hrest h

theorem Entries.listFree_lookup (es : Entries) (k : String) (v : FieldVal)
    (hlf : es.entriesListFree = true) (h : es.lookup k = some v) : v.listFree = true :=
  match es with
  | .nil => by simp [Entries.lookup] at h
  | .cons k' v' rest => by
    obtain ⟨hvlf, hrest⟩ := Entries.entriesListFree_cons hlf
    simp only [Entries.lookup] at h
    by_cases hk : k' = k
    · simp [hk] at h
      subst h
      exact hvlf
    · simp [hk] at h
      exact Entries.listFree_lookup rest k v hrest h

/-- Restriction of the entries-containment hypothesis of the
self-merge induction to the tail of a well-formed entry list. -/
theorem lookupSub_tail {ld rest : Entries} {key : String} {value : FieldVal}
    (hsub : ∀ k v, (Entries.cons key value rest).lookup k = some v → ld.lookup k = some v)
    (habs : (rest.lookup key).isSome = false) :
    ∀ k v, rest.lookup k = some v → ld.lookup k = some v := by
  intro k v hk
  apply hsub
  have hkey : k ≠ key := by
    intro hkk
    subst hkk
    simp [hk] at habs
  simp [Entries.lookup, Ne.symm hkey, hk]

/-- Merging a well-formed, list-free part (or dictionary) into itself
(or a dictionary already containing all its entries) never changes the
left operand, whatever the fuel and options: the fields loop only
reassigns equal values, and the set-union list rule is excluded by
list-freeness. -/
theorem mergeGo_self (fuel : Nat) (o : MergeOptions) :
    (∀ (trail : List String) (right todo : Entries),
      right.wfEntries = true → right.entriesListFree = true →
      ∃ res, mergeGo o fuel (.fields right right trail todo) = (right, res))
  ∧ (∀ (path : List String) (ld res0 : Entries),
      res0.wfEntries = true → res0.entriesListFree = true →
      ld.wfEntries = true →
      (∀ k v, res0.lookup k = some v → ld.lookup k = some v) →
      ∃ res, mergeGo o fuel (.dictEntries ld res0 path) = (ld, res)) := by
  induction fuel with
  | zero =>
    exact ⟨fun _ _ _ _ _ => ⟨[], by simp [mergeGo]⟩,
      fun _ _ _ _ _ _ _ => ⟨[], by simp [mergeGo]⟩⟩
  | succ fuel ih =>
    obtain ⟨ihf, ihd⟩ := ih
    constructor
    · intro trail right todo hwf hlf
      match todo with
      | .nil => exact ⟨[], by simp [mergeGo]⟩
      | .cons attr v rest =>
        obtain ⟨res2, hrec⟩ := ihf trail right rest hwf hlf
        cases hlk : right.lookup attr with
        | none => exact ⟨res2, by simp [mergeGo, hlk, hrec]⟩
        | some rv =>
          cases rv with
          | dict rd =>
            have hrdwf : rd.wfEntries = true := by
              simpa [FieldVal.wf] using Entries.wf_lookup right attr (.dict rd) hwf hlk
            have hrdlf : rd.entriesListFree = true := by
              simpa [FieldVal.listFree] using
                Entries.listFree_lookup right attr (.dict rd) hlf hlk
            obtain ⟨resd, hdict⟩ :=
              ihd (trail ++ [attr]) rd rd hrdwf hrdlf hrdwf (fun _ _ h => h)
            have hsets := Entries.set_self right attr (.dict rd) hwf hlk
            by_cases hlen : rd.length > 0
            · exact ⟨resd ++ res2, by simp [mergeGo, hlk, hlen, hdict, hsets, hrec]⟩
            · by_cases hcu : canUpdate (trail ++ [attr]) (.dict rd) (.dict rd) o = true
              · exact ⟨[trail ++ [attr]] ++ res2,
                  by simp [mergeGo, hlk, hlen, hcu, hsets, hrec]⟩
              · exact ⟨res2, by simp [mergeGo, hlk, hlen, hcu, hrec]⟩
          | part rp =>
            have hrpwf : rp.wfEntries = true := by
              simpa [FieldVal.wf] using Entries.wf_lookup right attr (.part rp) hwf hlk
            have hrplf : rp.entriesListFree = true := by
              simpa [FieldVal.listFree] using
                Entries.listFree_lookup right attr (.part rp) hlf hlk
            obtain ⟨resp, hrp⟩ := ihf (trail ++ [attr]) rp rp hrpwf hrplf
            have hsets := Entries.set_self right attr (.part rp) hwf hlk
            exact ⟨resp ++ res2, by simp [mergeGo, hlk, hrp, hsets, hrec]⟩
          | list xs =>
            have hxs : (FieldVal.list xs).listFree = true :=
              Entries.listFree_lookup right attr (.list xs) hlf hlk
            simp [FieldVal.listFree] at hxs
          | none =>
            have hsets := Entries.set_self right attr .none hwf hlk
            by_cases hcu : canUpdate (trail ++ [attr]) .none .none o = true
            · exact ⟨[trail ++ [attr]] ++ res2, by simp [mergeGo, hlk, hcu, hsets, hrec]⟩
            · exact ⟨res2, by simp [mergeGo, hlk, hcu, hrec]⟩
          | str sv =>
            have hsets := Entries.set_self right attr (.str sv) hwf hlk
            by_cases hcu : canUpdate (trail ++ [attr]) (.str sv) (.str sv) o = true
            · exact ⟨[trail ++ [attr]] ++ res2, by simp [mergeGo, hlk, hcu, hsets, hrec]⟩
            · exact ⟨res2, by simp [mergeGo, hlk, hcu, hrec]⟩
          | int iv =>
            have hsets := Entries.set_self right attr (.int iv) hwf hlk
            by_cases hcu : canUpdate (trail ++ [attr]) (.int iv) (.int iv) o = true
            · exact ⟨[trail ++ [attr]] ++ res2, by simp [mergeGo, hlk, hcu, hsets, hrec]⟩
            · exact ⟨res2, by simp [mergeGo, hlk, hcu, hrec]⟩
          | bool bv =>
            have hsets := Entries.set_self right attr (.bool bv) hwf hlk
            by_cases hcu : canUpdate (trail ++ [attr]) (.bool bv) (.bool bv) o = true
            · exact ⟨[trail ++ [attr]] ++ res2, by simp [mergeGo, hlk, hcu, hsets, hrec]⟩
            · exact ⟨res2, by simp [mergeGo, hlk, hcu, hrec]⟩
    · intro path ld res0 hres hlf hld hsub
      match res0 with
      | .nil => exact ⟨[], by simp [mergeGo]⟩
      | .cons key value rest =>
        obtain ⟨habs, hvwf, hrest⟩ := Entries.wfEntries_cons hres
        obtain ⟨hvlf, hlfrest⟩ := Entries.entriesListFree_cons hlf
        have hlk : ld.lookup key = some value :=
          hsub key value (Entries.lookup_cons_self key value rest)
        obtain ⟨res2, hrec⟩ := ihd path ld rest hrest hlfrest hld (lookupSub_tail hsub habs)
        cases value with
        | part rp =>
          have hrpwf : rp.wfEntries = true := by simpa [FieldVal.wf] using hvwf
          have hrplf : rp.entriesListFree = true := by
            simpa [FieldVal.listFree] using hvlf
          obtain ⟨resp, hrp⟩ := ihf (path ++ [key]) rp rp hrpwf hrplf
          have hsets := Entries.set_self ld key (.part rp) hld hlk
          exact ⟨resp ++ res2, by simp [mergeGo, hlk, hrp, hsets, hrec]⟩
        | none =>
          have hsets := Entries.set_self ld key .none hld hlk
          by_cases hcu : canUpdate path .none .none o = true
          · exact ⟨[path ++ [key]] ++ res2, by simp [mergeGo, hlk, hcu, hsets, hrec]⟩
          · exact ⟨res2, by simp [mergeGo, hlk, hcu, hrec]⟩
        | str sv =>
          have hsets := Entries.set_self ld key (.str sv) hld hlk
          by_cases hcu : canUpdate path (.str sv) (.str sv) o = true
          · exact ⟨[path ++ [key]] ++ res2, by simp [mergeGo, hlk, hcu, hsets, hrec]⟩
          · exact ⟨res2, by simp [mergeGo, hlk, hcu, hrec]⟩
        | int iv =>
          have hsets := Entries.set_self ld key (.int iv) hld hlk
          by_cases hcu : canUpdate path (.int iv) (.int iv) o = true
          · exact ⟨[path ++ [key]] ++ res2, by simp [mergeGo, hlk, hcu, hsets, hrec]⟩
          · exact ⟨res2, by simp [mergeGo, hlk, hcu, hrec]⟩
        | bool bv =>
          have hsets := Entries.set_self ld key (.bool bv) hld hlk
          by_cases hcu : canUpdate path (.bool bv) (.bool bv) o = true
          · exact ⟨[path ++ [key]] ++ res2, by simp [mergeGo, hlk, hcu, hsets, hrec]⟩
          · exact ⟨res2, by simp [mergeGo, hlk, hcu, hrec]⟩
        | list xs =>
          have hsets := Entries.set_self ld key (.list xs) hld hlk
          by_cases hcu : canUpdate path (.list xs) (.list xs) o = true
          · exact ⟨[path ++ [key]] ++ res2, by simp [mergeGo, hlk, hcu, hsets, hrec]⟩
          · exact ⟨res2, by simp [mergeGo, hlk, hcu, hrec]⟩
        | dict es =>
          have hsets := Entries.set_self ld key (.dict es) hld hlk
          by_cases hcu : canUpdate path (.dict es) (.dict es) o = true
          · exact ⟨[path ++ [key]] ++ res2, by simp [mergeGo, hlk, hcu, hsets, hrec]⟩
          · exact ⟨res2, by simp [mergeGo, hlk, hcu, hrec]⟩

/-- C3 counterexample: for the fully populated record `populatedSelf`
(whose `profiles` list holds a duplicate), `merge(r, r, overwrite=True)`
returns a non-empty changed-path list and changes the record (the
set-union list rule deduplicates `profiles`), contradicting both the
claimed idempotence over all records and the claimed empty path list
for fully populated records. -/
theorem merge_self_overwrite_changes :
    populatedSelf.entriesPopulated = true
    ∧ (merge populatedSelf populatedSelf (some true)).2 ≠ []
    ∧ (merge populatedSelf populatedSelf (some true)).1 ≠ populatedSelf := by
  decide

/-- C3 (amended): for records containing no Python list,
`merge(r, r, overwrite=True)` changes nothing: every field of `r` is
reassigned its own value.  The returned path list is the list of
assigned paths — which the option logic makes non-empty for populated
records — not the list of value-changing assignments. -/
theorem merge_self_idempotent_listfree (r : Part)
    (hwf : r.wfEntries = true) (hlf : r.entriesListFree = true) :
    (merge r r (some true)).1 = r := by
  obtain ⟨res, h⟩ :=
    (mergeGo_self (mergeFuel r r) { overwrite := some true }).1 [] r r hwf hlf
  simp [merge, h]

/-- Witness: the idempotence theorem applied to a concrete two-field
record. -/
theorem merge_self_idempotent_listfree_witness :
    (merge (Entries.ofList [("caption", .str "x"), ("uid", .int 1)])
        (Entries.ofList [("caption", .str "x"), ("uid", .int 1)]) (some true)).1
      = Entries.ofList [("caption", .str "x"), ("uid", .int 1)] :=
  merge_self_idempotent_listfree _ (by decide) (by decide)

/-- C2 (code bug): the `ChangedX` field sets do not mirror the source
record field sets.  `OcsfAttr` declares `object_type`, `object_name`
and `type_name` but `ChangedAttr` declares none of them; `OcsfSchema`
declares `categories` but `ChangedSchema` does not; `ChangedEvent`
declares `include` with no `OcsfEvent` counterpart; and `OcsfCategory`
has no `ChangedModel` at all — `create_diff` raises `ValueError` on
it.  (`compare` still `setattr`s the missing slots, creating dynamic
attributes that the dataclass field list and equality ignore.) -/
theorem changed_field_sets_mismatch :
    ("object_type" ∈ OcsfAttr.fieldNames ∧ "object_type" ∉ ChangedAttr.fieldNames)
  ∧ ("object_name" ∈ OcsfAttr.fieldNames ∧ "object_name" ∉ ChangedAttr.fieldNames)
  ∧ ("type_name" ∈ OcsfAttr.fieldNames ∧ "type_name" ∉ ChangedAttr.fieldNames)
  ∧ ("categories" ∈ OcsfSchema.fieldNames ∧ "categories" ∉ ChangedSchema.fieldNames)
  ∧ ("include" ∈ ChangedEvent.fieldNames ∧ "include" ∉ OcsfEvent.fieldNames)
  ∧ create_diff (.category ⟨"cat", 0, "Cat", Option.none, Option.none, Option.none⟩)
      = .error "Unrecognized OCSF model type" := by
  decide

/-- C4 counterexample: with `overwrite=True` and
`allowed_fields=[("attrs","a")]`, the existing dictionary entry at
exactly the allowed path `attrs.a` is still not updated: the
dictionary-entry branch gates existing non-record entries with the
containing field path `("attrs",)` (merge.py line 187), which the
selector does not match. -/
theorem merge_allowed_nested_not_updated :
    merge allowedNestedLeft allowedNestedRight (some true)
        (some [.path ["attrs", "a"]])
      = (allowedNestedLeft, []) := by
  decide

/-- C7 (code bug): `keys_to_names` renames recursively (its test's
input/output pair holds), but `names_to_keys` renames top-level keys
only — on `test_names_to_keys`'s input the nested `baz.include_` is
left as `include_` instead of becoming `$include` (the recursive
branch tests `isinstance(k, dict)` on the string key `k`), so the
JSON round-trip of a schema with a nested renameable key does not
restore the original keys. -/
theorem names_to_keys_shallow :
    keys_to_names kxKeysData = .ofList [("foo", .str "bar"),
      ("baz", .dict (.ofList [("qux", .str "quux"), ("include_", .str "grault")])),
      ("deprecated", .dict (.ofList [("since", .str "blah"), ("message", .str "meh")]))]
  ∧ (names_to_keys kxNamesData).lookup "baz"
      = some (.dict (.ofList [("qux", .str "quux"), ("include_", .str "grault")]))
  ∧ ((names_to_keys kxNamesData).lookup "@deprecated").isSome = true := by
  decide

/-- C10 counterexample: a `@deprecated` key inside a dictionary that is
an element of a list is not renamed by `from_dict`'s key transform —
the caller's dictionary is returned entirely unchanged, with the
`@deprecated` key still present at depth. -/
theorem from_dict_list_nested_not_renamed :
    from_dict_arg listNestedKeys = listNestedKeys
    ∧ (from_dict_arg listNestedKeys).lookup "a"
        = some (.list (VList.cons (.dict (.cons "@deprecated" (.str "d") .nil)) .nil)) := by
  decide

/-- C9 counterexample: `IncludePlanner.analyze` rewrites the
`DefinitionFile` record it is handed — it nulls the root `include_`
field and deletes the `include_` key of the attributes dictionary —
and `Compilation.analyze` hands it the backing repository's own
records, so the repository is mutated by the analyze phase. -/
theorem include_analyze_mutates_repo_record :
    includeAnalyzeData includeInput ≠ includeInput
    ∧ (includeAnalyzeData includeInput).lookup "include_" = some .none
    ∧ (includeAnalyzeData includeInput).lookup "attributes"
        = some (.dict (.ofList [("other", .part (.ofList [("caption", .str "o")]))])) := by
  decide

/-- C1 counterexample: comparing a model with itself does not yield
`NoChange()`: it yields the model's `ChangedModel` with `NoChange` in
every slot, a different `Difference` value — and for `OcsfCategory`
(e.g. inside `OcsfSchema.categories` there is no `ChangedModel` at
all, so `compare(x, x)` raises `ValueError`. -/
theorem compare_refl_not_noChange :
    compare (.model (.version ⟨"1.0.0"⟩)) (.model (.version ⟨"1.0.0"⟩))
        = .ok (.changedVersion .noChange)
    ∧ Diff.changedVersion .noChange ≠ Diff.noChange
    ∧ compare (.model (.category ⟨"net", 1, "Net", Option.none, Option.none, Option.none⟩))
        (.model (.category ⟨"net", 1, "Net", Option.none, Option.none, Option.none⟩))
        = .error "Unrecognized OCSF model type" := by
  decide

/-- C8 counterexample: two values of the same shape — equal
`OcsfCategory` models — on which `compare` raises `ValueError` instead
of returning a `Difference`. -/
theorem compare_category_raises :
    diffOk (compare
        (.model (.category ⟨"net", 1, "Net", Option.none, Option.none, Option.none⟩))
        (.model (.category ⟨"net", 1, "Net", Option.none, Option.none, Option.none⟩)))
      = false := by
  decide

/-- The `allowed_fields` loop computes: some selector matches and
`change_field()` allows. -/
theorem allowLoop_any (path : List String) (cf : Bool) (A : List FieldSel) :
    allowLoop path cf A = ((A.any fun a => a.matches path) && cf) := by
  induction A with
  | nil => simp [allowLoop]
  | cons a rest ih =>
    by_cases hm : a.matches path = true
    · cases cf <;> simp [allowLoop, hm, ih]
    · have hm' : a.matches path = false := by simpa using hm
      simp [allowLoop, hm', ih]

/-- The `ignored_fields` loop computes: no selector matches and
`change_field()` allows. -/
theorem denyLoop_any (path : List String) (cf : Bool) (D : List FieldSel) :
    denyLoop path cf D = (!(D.any fun d => d.matches path) && cf) := by
  induction D with
  | nil => simp [denyLoop]
  | cons d rest ih =>
    by_cases hm : d.matches path = true
    · simp [denyLoop, hm]
    · have hm' : d.matches path = false := by simpa using hm
      simp [denyLoop, hm', ih, Bool.and_assoc]

/-- A tuple selector matches every path extending it. -/
theorem fieldSel_path_matches_extension (q rest : List String) :
    (FieldSel.path q).matches (q ++ rest) = true := by
  induction q with
  | nil => simp [FieldSel.matches]
  | cons a q ih =>
    simpa [FieldSel.matches, List.take] using ih

/-- One step of the dictionary-entry loop on a key absent on the left:
the entry is appended exactly when `add_dict_items` and
`_can_update(next_path, None, value, options)` allow, and the reported
path is the entry's own `next_path`. -/
theorem mergeGo_dict_new_key (o : MergeOptions) (fuel : Nat) (path : List String)
    (ld : Entries) (key : String) (rv : FieldVal)
    (hlk : ld.lookup key = Option.none) :
    mergeGo o (fuel + 1) (.dictEntries ld (.cons key rv .nil) path)
      = if o.add_dict_items && canUpdate (path ++ [key]) .none rv o then
          (ld.append key rv, [path ++ [key]])
        else
          (ld, []) := by
  cases fuel <;> split <;> simp_all [mergeGo, hlk]

/-- One step of the dictionary-entry loop on a key present on the left
where the two values are not both `DefinitionPart`s: the entry is
assigned exactly when `_can_update` allows — called with the containing
field's `path`, not the entry's own path — while the reported path is
the entry's `next_path` (merge.py line 187). -/
theorem mergeGo_dict_existing_key (o : MergeOptions) (fuel : Nat) (path : List String)
    (ld : Entries) (key : String) (lv rv : FieldVal)
    (hlk : ld.lookup key = some lv)
    (hnp : lv.isPart = false ∨ rv.isPart = false) :
    mergeGo o (fuel + 1) (.dictEntries ld (.cons key rv .nil) path)
      = if canUpdate path lv rv o then
          (ld.set key rv, [path ++ [key]])
        else
          (ld, []) := by
  cases lv <;> cases rv <;>
    simp [FieldVal.isPart] at hnp ⊢ <;>
    cases fuel <;> split <;> simp_all [mergeGo, hlk]

/-- C4 (amended): the per-field decision table of `_can_update`.  With
default options a field updates only when the left value is `None` and
the right is not, except that two list values always update (they are
set-unioned by the `merge_lists` rule, which is on by default); with
`overwrite=True` a field updates exactly when the right value is
present; with `overwrite_none=True` in addition, always.  When
`allowed_fields` is set it gates the decision: the field updates only
if some selector matches the field's path and the default/overwrite
logic allows; `ignored_fields` (consulted only when `allowed_fields`
is unset) blocks any matching path.  A tuple selector matches exactly
the paths extending it — so nested fields of a named field are
included — and a bare name matches paths whose first component is the
name.  This describes the declared-field loop and the addition of new
dictionary keys; for a dictionary entry that already exists on the
left, however (`mergeGo_dict_existing_key`) the gate is evaluated
against the containing field's path rather than the entry's own
dotted path, so a selector naming the entry's exact path does not
enable its update (the counterexample). -/
theorem canUpdate_decision_table :
    (∀ p l r, canUpdate p l r {} =
        ((l.isList && r.isList) || (l.isNone && !r.isNone)))
  ∧ (∀ p l r, canUpdate p l r { overwrite := some true } = !r.isNone)
  ∧ (∀ p l r, canUpdate p l r { overwrite := some true, overwrite_none := true } = true)
  ∧ (∀ p l r o A, o.allowed_fields = some A →
      canUpdate p l r o = ((A.any fun a => a.matches p) && changeField l r o))
  ∧ (∀ p l r o D, o.allowed_fields = Option.none → o.ignored_fields = some D →
      canUpdate p l r o = (!(D.any fun d => d.matches p) && changeField l r o))
  ∧ (∀ q rest, (FieldSel.path q).matches (q ++ rest) = true)
  ∧ (∀ s p0 rest, (FieldSel.name s).matches (p0 :: rest) = true ↔ p0 = s)
  ∧ (∀ o fuel path ld key rv, ld.lookup key = Option.none →
      mergeGo o (fuel + 1) (.dictEntries ld (.cons key rv .nil) path)
        = if o.add_dict_items && canUpdate (path ++ [key]) .none rv o then
            (ld.append key rv, [path ++ [key]])
          else (ld, [])) := by
  refine ⟨?_, ?_, ?_, ?_, ?_, ?_, ?_, ?_⟩
  · intro p l r
    cases l <;> cases r <;>
      simp [canUpdate, changeField, MergeOptions.overwriteB,
        FieldVal.isList, FieldVal.isNone]
  · intro p l r
    cases r <;>
      simp [canUpdate, changeField, MergeOptions.overwriteB,
        FieldVal.isList, FieldVal.isNone]
  · intro p l r
    simp [canUpdate, changeField, MergeOptions.overwriteB]
  · intro p l r o A hA
    simp [canUpdate, hA, allowLoop_any]
  · intro p l r o D hA hD
    simp [canUpdate, hA, hD, denyLoop_any]
  · exact fieldSel_path_matches_extension
  · intro s p0 rest
    simp [FieldSel.matches]
  · intro o fuel path ld key rv h
    exact mergeGo_dict_new_key o fuel path ld key rv h

/-- Witness: the decision-table theorem applied at concrete inputs —
the overwrite rule updates a present scalar, and a new `attrs.b`
dictionary entry is appended with its own path reported. -/
theorem canUpdate_decision_table_witness :
    canUpdate ["value"] (.int 1) (.int 2) { overwrite := some true } = true
    ∧ mergeGo { overwrite := some true } 1
        (.dictEntries (.ofList [("a", .int 1)]) (.cons "b" (.int 2) .nil) ["attrs"])
      = (.ofList [("a", .int 1), ("b", .int 2)], [["attrs", "b"]]) := by
  constructor
  · rw [canUpdate_decision_table.2.1 ["value"] (.int 1) (.int 2)]
    decide
  · rw [canUpdate_decision_table.2.2.2.2.2.2.2 { overwrite := some true } 0
      ["attrs"] (.ofList [("a", .int 1)]) "b" (.int 2) (by decide)]
    decide

/-- `Except.ok` on the left of a bind reduces. -/
theorem exceptOkBind {α β : Type} (a : α) (f : α → Except String β) :
    (Except.ok a >>= f) = f a := rfl

/-- `Except.error` on the left of a bind short-circuits. -/
theorem exceptErrBind {α β : Type} (e : String) (f : α → Except String β) :
    ((Except.error e : Except String α) >>= f) = .error e := rfl

/-- Reflexivity of the primitive comparison rule. -/
theorem cmpEq_refl {α : Type} [DecidableEq α] (f : α → Value) (a : α) :
    cmpEq f a a = .noChange := by
  simp [cmpEq]

/-- Comparing a deprecation-info field with itself records no change. -/
theorem cmpOptDep_refl (a : Option OcsfDeprecationInfo) :
    (cmpOptDep a a).changeless = true := by
  cases a with
  | none => rfl
  | some x =>
    show (Diff.changedDeprecationInfo (cmpEq strVal x.message x.message)
      (cmpEq strVal x.since x.since)).changeless = true
    simp [Diff.changeless, cmpEq_refl]

/-- `compare_dict`'s key walk over identical dictionaries returns
entries that record no change (equal values short-circuit before the
entry comparison runs, so no entry can raise). -/
theorem compareDictGo_refl {α : Type} [DecidableEq α]
    (cmp : α → α → Except String Diff) (tv : α → Value) (o : List (String × α)) :
    ∀ ks, ∃ es, compareDictGo cmp tv o o ks = .ok es ∧ es.changelessE = true
  | [] => ⟨.nil, by simp [compareDictGo, DiffEntries.changelessE]⟩
  | k :: ks => by
    obtain ⟨es, hes, hcl⟩ := compareDictGo_refl cmp tv o ks
    have hkey : compareDictKey cmp tv o o k = .ok .noChange := by
      cases hcl2 : o.lookup k <;> simp [compareDictKey, hcl2]
    exact ⟨.cons k .noChange es, by
      simp [compareDictGo, hkey, hes, exceptOkBind, DiffEntries.changelessE, Diff.changeless, hcl]⟩

/-- `compare_dict` of a dictionary with itself returns a changeless
difference. -/
theorem compareDict_refl {α : Type} [DecidableEq α]
    (cmp : α → α → Except String Diff) (tv : α → Value) (o : Option (List (String × α))) :
    ∃ d, compare_dict cmp tv o o = .ok d ∧ d.changeless = true := by
  cases o with
  | none => exact ⟨.noChange, by simp [compare_dict], by simp [Diff.changeless]⟩
  | some l =>
    obtain ⟨es, hes, hcl⟩ :=
      compareDictGo_refl cmp tv l (unionKeys (l.map Prod.fst) (l.map Prod.fst))
    exact ⟨.dictDiff es, by simp [compare_dict, hes, exceptOkBind], by simp [Diff.changeless, hcl]⟩

/-- Comparing an attribute with itself: a `ChangedAttr` with no change
recorded anywhere, never `NoChange` itself. -/
theorem compareAttr_refl (a : OcsfAttr) :
    ∃ d, compareAttr a a = .ok d ∧ d.changeless = true ∧ d ≠ .noChange := by
  obtain ⟨e, he, hce⟩ := compareDict_refl (fun x y => .ok (compareEnumMember x y))
    (fun m => .model (.enumMember m)) a.enum
  refine ⟨.changedAttr .noChange .noChange .noChange .noChange .noChange e .noChange
    .noChange .noChange .noChange (cmpOptDep a.deprecated a.deprecated), ?_, ?_, by simp⟩
  · simp [compareAttr, he, exceptOkBind, cmpEq_refl]
  · simp [Diff.changeless, hce, cmpOptDep_refl]

/-- Comparing an object with itself: changeless, not `NoChange`. -/
theorem compareObject_refl (a : OcsfObject) :
    ∃ d, compareObject a a = .ok d ∧ d.changeless = true ∧ d ≠ .noChange := by
  obtain ⟨d1, h1, c1⟩ := compareDict_refl cmpAttrEntry (fun m => .model (.attr m))
    (some a.attributes)
  obtain ⟨d2, h2, c2⟩ := compareDict_refl (fun x y => .ok (cmpEq strListVal x y))
    (fun xs => .strList xs) a.constraints
  refine ⟨.changedObject .noChange .noChange d1 .noChange .noChange .noChange .noChange
    d2 (cmpOptDep a.deprecated a.deprecated), ?_, ?_, by simp⟩
  · simp [compareObject, h1, h2, exceptOkBind, cmpEq_refl]
  · simp [Diff.changeless, c1, c2, cmpOptDep_refl]

/-- Comparing an event with itself: changeless, not `NoChange`. -/
theorem compareEvent_refl (a : OcsfEvent) :
    ∃ d, compareEvent a a = .ok d ∧ d.changeless = true ∧ d ≠ .noChange := by
  obtain ⟨d1, h1, c1⟩ := compareDict_refl cmpAttrEntry (fun m => .model (.attr m))
    (some a.attributes)
  obtain ⟨d2, h2, c2⟩ := compareDict_refl (fun x y => .ok (cmpEq strListVal x y))
    (fun xs => .strList xs) a.associations
  obtain ⟨d3, h3, c3⟩ := compareDict_refl (fun x y => .ok (cmpEq strListVal x y))
    (fun xs => .strList xs) a.constraints
  refine ⟨.changedEvent .noChange .noChange d1 .noChange .noChange .noChange .noChange
    .noChange d2 d3 .noChange (cmpOptDep a.deprecated a.deprecated), ?_, ?_, by simp⟩
  · simp [compareEvent, h1, h2, h3, exceptOkBind, cmpEq_refl]
  · simp [Diff.changeless, c1, c2, c3, cmpOptDep_refl]

/-- Comparing a profile with itself: changeless, not `NoChange`. -/
theorem compareProfile_refl (a : OcsfProfile) :
    ∃ d, compareProfile a a = .ok d ∧ d.changeless = true ∧ d ≠ .noChange := by
  obtain ⟨d1, h1, c1⟩ := compareDict_refl cmpAttrEntry (fun m => .model (.attr m))
    (some a.attributes)
  obtain ⟨d2, h2, c2⟩ := compareDict_refl (fun x y => .ok (cmpEq strVal x y))
    (fun s => .str s) a.annotations
  refine ⟨.changedProfile .noChange .noChange .noChange .noChange d1
    (cmpOptDep a.deprecated a.deprecated) d2, ?_, ?_, by simp⟩
  · simp [compareProfile, h1, h2, exceptOkBind, cmpEq_refl]
  · simp [Diff.changeless, c1, c2, cmpOptDep_refl]

/-- Comparing an optional base event with itself: changeless. -/
theorem cmpOptEvent_refl (b : Option OcsfEvent) :
    ∃ d, cmpOptEvent b b = .ok d ∧ d.changeless = true := by
  cases b with
  | none => exact ⟨.noChange, rfl, by simp [Diff.changeless]⟩
  | some e =>
    obtain ⟨d, h1, h2, _⟩ := compareEvent_refl e
    exact ⟨d, show compareEvent e e = .ok d from h1, h2⟩

/-- Comparing a schema with itself: changeless, not `NoChange`.  The
`categories` walk cannot raise on identical dictionaries because equal
values short-circuit before `create_diff` runs. -/
theorem compareSchema_refl (a : OcsfSchema) :
    ∃ d, compareSchema a a = .ok d ∧ d.changeless = true ∧ d ≠ .noChange := by
  obtain ⟨d1, h1, c1⟩ := compareDict_refl (fun x y => compareEvent x y)
    (fun m => .model (.event m)) (some a.classes)
  obtain ⟨d2, h2, c2⟩ := compareDict_refl (fun x y => compareObject x y)
    (fun m => .model (.object m)) (some a.objects)
  obtain ⟨d3, h3, c3⟩ := compareDict_refl (fun x y => .ok (compareType x y))
    (fun m => .model (.type m)) (some a.types)
  obtain ⟨d4, h4, c4⟩ := cmpOptEvent_refl a.base_event
  obtain ⟨d5, h5, c5⟩ := compareDict_refl (fun x y => compareProfile x y)
    (fun m => .model (.profile m)) a.profiles
  obtain ⟨d6, h6, c6⟩ := compareDict_refl (fun x y => .ok (compareExtension x y))
    (fun m => .model (.extension m)) a.extensions
  obtain ⟨d7, h7, _⟩ := compareDict_refl cmpCategoryEntry
    (fun m => .model (.category m)) a.categories
  refine ⟨.changedSchema d1 d2 .noChange d3 d4 d5 d6, ?_, ?_, by simp⟩
  · simp [compareSchema, h1, h2, h3, h4, h5, h6, h7, exceptOkBind, cmpEq_refl]
  · simp [Diff.changeless, c1, c2, c3, c4, c5, c6]

/-- C1 (amended): `compare(x, x)` yields `NoChange()` exactly for the
primitive values.  For a model of any type with a `ChangedModel`, it
yields that `ChangedModel` with no change recorded in any slot — a
changeless difference, but a different value from `NoChange()` — and
for `OcsfCategory`, which has no `ChangedModel`, it raises
`ValueError`. -/
theorem compare_refl_characterization (v : Value) :
    (v.isPrim = true → compare v v = .ok .noChange)
  ∧ (∀ c, v = .model (.category c) → compare v v = .error "Unrecognized OCSF model type")
  ∧ (∀ m, v = .model m → (∀ c, m ≠ .category c) →
      ∃ d, compare v v = .ok d ∧ d.changeless = true ∧ d ≠ .noChange) := by
  refine ⟨?_, ?_, ?_⟩
  · intro hp
    cases v <;> simp_all [Value.isPrim, compare]
  · intro c hc
    subst hc
    simp [compare, compareModels]
  · intro m hm hnc
    subst hm
    cases m with
    | version a =>
      exact ⟨.changedVersion .noChange,
        by simp [compare, compareModels, compareVersion, cmpEq_refl],
        by simp [Diff.changeless], by simp⟩
    | enumMember a =>
      exact ⟨.changedEnumMember .noChange .noChange .noChange,
        by simp [compare, compareModels, compareEnumMember, cmpEq_refl],
        by simp [Diff.changeless], by simp⟩
    | deprecationInfo a =>
      exact ⟨.changedDeprecationInfo .noChange .noChange,
        by simp [compare, compareModels, compareDeprecationInfo, cmpEq_refl],
        by simp [Diff.changeless], by simp⟩
    | type a =>
      refine ⟨.changedType .noChange .noChange .noChange
        (cmpOptDep a.deprecated a.deprecated) .noChange .noChange .noChange .noChange
        .noChange .noChange .noChange, ?_, ?_, by simp⟩
      · simp [compare, compareModels, compareType, cmpEq_refl]
      · simp [Diff.changeless, cmpOptDep_refl]
    | attr a =>
      obtain ⟨d, h1, h2, h3⟩ := compareAttr_refl a
      exact ⟨d, by simp [compare, compareModels, h1], h2, h3⟩
    | object a =>
      obtain ⟨d, h1, h2, h3⟩ := compareObject_refl a
      exact ⟨d, by simp [compare, compareModels, h1], h2, h3⟩
    | event a =>
      obtain ⟨d, h1, h2, h3⟩ := compareEvent_refl a
      exact ⟨d, by simp [compare, compareModels, h1], h2, h3⟩
    | profile a =>
      obtain ⟨d, h1, h2, h3⟩ := compareProfile_refl a
      exact ⟨d, by simp [compare, compareModels, h1], h2, h3⟩
    | extension a =>
      refine ⟨.changedExtension .noChange .noChange .noChange .noChange .noChange
        (cmpOptDep a.deprecated a.deprecated), ?_, ?_, by simp⟩
      · simp [compare, compareModels, compareExtension, cmpEq_refl]
      · simp [Diff.changeless, cmpOptDep_refl]
    | category c => exact absurd rfl (hnc c)
    | schema a =>
      obtain ⟨d, h1, h2, h3⟩ := compareSchema_refl a
      exact ⟨d, by simp [compare, compareModels, h1], h2, h3⟩

/-- Witness: the reflexivity characterization applied to the primitive
`"x"` and to a concrete event model. -/
theorem compare_refl_characterization_witness :
    compare (.str "x") (.str "x") = .ok .noChange :=
  (compare_refl_characterization (.str "x")).1 (by decide)

/-- A bind whose continuation wraps in `ok` returns normally exactly
when its head does. -/
theorem exists_ok_bind {α β : Type} {x : Except String α} {g : α → β} :
    (∃ y, (x >>= fun r => Except.ok (g r)) = .ok y) ↔ ∃ r, x = .ok r := by
  cases x <;> simp [exceptOkBind, exceptErrBind]

/-- One `compare_dict` entry returns normally whenever the entry
comparison does. -/
theorem compareDictKey_total {α : Type} [DecidableEq α]
    (cmp : α → α → Except String Diff) (tv : α → Value)
    (h : ∀ x y, ∃ d, cmp x y = .ok d) (old new : List (String × α)) (k : String) :
    ∃ d, compareDictKey cmp tv old new k = .ok d := by
  cases h1 : old.lookup k with
  | none => cases h2 : new.lookup k <;> simp [compareDictKey, h1, h2]
  | some v1 =>
    cases h2 : new.lookup k with
    | none => simp [compareDictKey, h1, h2]
    | some v2 =>
      by_cases hv : v1 = v2
      · simp [compareDictKey, h1, h2, hv]
      · simpa [compareDictKey, h1, h2, hv] using h v1 v2

/-- The `compare_dict` key walk returns normally whenever the entry
comparison always does. -/
theorem compareDictGo_total {α : Type} [DecidableEq α]
    (cmp : α → α → Except String Diff) (tv : α → Value)
    (h : ∀ x y, ∃ d, cmp x y = .ok d) (old new : List (String × α)) :
    ∀ ks, ∃ es, compareDictGo cmp tv old new ks = .ok es
  | [] => ⟨.nil, rfl⟩
  | k :: ks => by
    obtain ⟨d, hd⟩ := compareDictKey_total cmp tv h old new k
    obtain ⟨es, hes⟩ := compareDictGo_total cmp tv h old new ks
    exact ⟨.cons k d es, by simp [compareDictGo, hd, hes, exceptOkBind]⟩

/-- `compare_dict` returns normally whenever the entry comparison
always does. -/
theorem compareDict_total {α : Type} [DecidableEq α]
    (cmp : α → α → Except String Diff) (tv : α → Value)
    (h : ∀ x y, ∃ d, cmp x y = .ok d) (old new : Option (List (String × α))) :
    ∃ d, compare_dict cmp tv old new = .ok d := by
  match old, new with
  | Option.none, Option.none => exact ⟨.noChange, rfl⟩
  | some o, Option.none =>
    obtain ⟨es, hes⟩ := compareDictGo_total cmp tv h o []
      (unionKeys (o.map Prod.fst) [])
    exact ⟨.dictDiff es, by simp [compare_dict, hes, exceptOkBind]⟩
  | Option.none, some n =>
    obtain ⟨es, hes⟩ := compareDictGo_total cmp tv h [] n
      (unionKeys [] (n.map Prod.fst))
    exact ⟨.dictDiff es, by simp [compare_dict, hes, exceptOkBind]⟩
  | some o, some n =>
    obtain ⟨es, hes⟩ := compareDictGo_total cmp tv h o n
      (unionKeys (o.map Prod.fst) (n.map Prod.fst))
    exact ⟨.dictDiff es, by simp [compare_dict, hes, exceptOkBind]⟩

/-- `compare` on two attributes never raises. -/
theorem compareAttr_total (a b : OcsfAttr) : ∃ d, compareAttr a b = .ok d := by
  obtain ⟨e, he⟩ := compareDict_total (fun x y => .ok (compareEnumMember x y))
    (fun m => .model (.enumMember m)) (fun _ _ => ⟨_, rfl⟩) a.enum b.enum
  exact ⟨.changedAttr (cmpEq strVal a.caption b.caption)
    (cmpEq optStrVal a.description b.description)
    (cmpEq strVal a.requirement b.requirement) (cmpEq strVal a.type b.type)
    (cmpEq boolVal a.is_array b.is_array) e (cmpEq optStrVal a.group b.group)
    (cmpEq optIntVal a.observable b.observable) (cmpEq optStrVal a.sibling b.sibling)
    (cmpEq optProfileVal a.profile b.profile) (cmpOptDep a.deprecated b.deprecated),
    by simp [compareAttr, he, exceptOkBind]⟩

/-- `compare` on two objects never raises. -/
theorem compareObject_total (a b : OcsfObject) : ∃ d, compareObject a b = .ok d := by
  obtain ⟨d1, h1⟩ := compareDict_total cmpAttrEntry (fun m => .model (.attr m))
    compareAttr_total (some a.attributes) (some b.attributes)
  obtain ⟨d2, h2⟩ := compareDict_total (fun x y => .ok (cmpEq strListVal x y))
    (fun xs => .strList xs) (fun _ _ => ⟨_, rfl⟩) a.constraints b.constraints
  exact ⟨.changedObject (cmpEq strVal a.caption b.caption) (cmpEq strVal a.name b.name)
    d1 (cmpEq optStrVal a.description b.description) (cmpEq optStrVal a.ext b.ext)
    (cmpEq optIntVal a.observable b.observable)
    (cmpEq optStrListVal a.profiles b.profiles) d2 (cmpOptDep a.deprecated b.deprecated),
    by simp [compareObject, h1, h2, exceptOkBind]⟩

/-- `compare` on two events never raises. -/
theorem compareEvent_total (a b : OcsfEvent) : ∃ d, compareEvent a b = .ok d := by
  obtain ⟨d1, h1⟩ := compareDict_total cmpAttrEntry (fun m => .model (.attr m))
    compareAttr_total (some a.attributes) (some b.attributes)
  obtain ⟨d2, h2⟩ := compareDict_total (fun x y => .ok (cmpEq strListVal x y))
    (fun xs => .strList xs) (fun _ _ => ⟨_, rfl⟩) a.associations b.associations
  obtain ⟨d3, h3⟩ := compareDict_total (fun x y => .ok (cmpEq strListVal x y))
    (fun xs => .strList xs) (fun _ _ => ⟨_, rfl⟩) a.constraints b.constraints
  exact ⟨.changedEvent (cmpEq strVal a.caption b.caption) (cmpEq strVal a.name b.name)
    d1 (cmpEq optStrVal a.description b.description) (cmpEq optIntVal a.uid b.uid)
    (cmpEq optStrVal a.category b.category) (cmpEq optStrVal a.ext b.ext)
    (cmpEq optStrListVal a.profiles b.profiles) d2 d3 .noChange
    (cmpOptDep a.deprecated b.deprecated),
    by simp [compareEvent, h1, h2, h3, exceptOkBind]⟩

/-- `compare` on two profiles never raises. -/
theorem compareProfile_total (a b : OcsfProfile) : ∃ d, compareProfile a b = .ok d := by
  obtain ⟨d1, h1⟩ := compareDict_total cmpAttrEntry (fun m => .model (.attr m))
    compareAttr_total (some a.attributes) (some b.attributes)
  obtain ⟨d2, h2⟩ := compareDict_total (fun x y => .ok (cmpEq strVal x y))
    (fun st => .str st) (fun _ _ => ⟨_, rfl⟩) a.annotations b.annotations
  exact ⟨.changedProfile (cmpEq strVal a.caption b.caption) (cmpEq strVal a.name b.name)
    (cmpEq strVal a.meta b.meta) (cmpEq optStrVal a.description b.description) d1
    (cmpOptDep a.deprecated b.deprecated) d2,
    by simp [compareProfile, h1, h2, exceptOkBind]⟩

/-- `compare` on two optional base events never raises. -/
theorem cmpOptEvent_total (x y : Option OcsfEvent) : ∃ d, cmpOptEvent x y = .ok d := by
  match x, y with
  | some a, some b =>
    obtain ⟨d, hd⟩ := compareEvent_total a b
    exact ⟨d, show compareEvent a b = .ok d from hd⟩
  | Option.none, Option.none => exact ⟨.noChange, rfl⟩
  | some a, Option.none => exact ⟨_, rfl⟩
  | Option.none, some b => exact ⟨_, rfl⟩

/-- The `compare_dict` key walk over two category dictionaries returns
normally exactly when no listed key is bound on both sides to unequal
values (each such key reaches `compare`, which raises through
`create_diff`). -/
theorem compareDictGoCat (o n : List (String × OcsfCategory)) :
    ∀ ks, (∃ es, compareDictGo cmpCategoryEntry (fun m => .model (.category m)) o n ks
        = .ok es)
      ↔ (ks.all fun k => !clashAt o n k) = true
  | [] => by simp [compareDictGo]
  | k :: ks => by
    have ih := compareDictGoCat o n ks
    cases h1 : o.lookup k with
    | none =>
      cases h2 : n.lookup k <;>
        simp [compareDictGo, compareDictKey, h1, h2, exceptOkBind, exists_ok_bind,
          clashAt, ih]
    | some v1 =>
      cases h2 : n.lookup k with
      | none =>
        simp [compareDictGo, compareDictKey, h1, h2, exceptOkBind, exists_ok_bind,
          clashAt, ih]
      | some v2 =>
        by_cases hv : v1 = v2
        · simp [compareDictGo, compareDictKey, h1, h2, hv, exceptOkBind,
            exists_ok_bind, clashAt, ih]
        · simp [compareDictGo, compareDictKey, h1, h2, hv, cmpCategoryEntry,
            exceptErrBind, clashAt]

/-- `compare_dict` over two category dictionaries returns normally
exactly when the dictionaries do not clash. -/
theorem compareDictCat_ok_iff (o n : Option (List (String × OcsfCategory))) :
    (∃ d, compare_dict cmpCategoryEntry (fun m => .model (.category m)) o n = .ok d)
      ↔ dictClash o n = false := by
  match o, n with
  | Option.none, Option.none =>
    simp [compare_dict, dictClash, unionKeys, clashAt, List.lookup]
  | some l, Option.none =>
    simp only [compare_dict, Option.getD_some, Option.getD_none, exists_ok_bind]
    rw [compareDictGoCat]
    simp [dictClash, List.all_eq_true, List.any_eq_true]
  | Option.none, some r =>
    simp only [compare_dict, Option.getD_some, Option.getD_none, exists_ok_bind]
    rw [compareDictGoCat]
    simp [dictClash, List.all_eq_true, List.any_eq_true]
  | some l, some r =>
    simp only [compare_dict, Option.getD_some, exists_ok_bind]
    rw [compareDictGoCat]
    simp [dictClash, List.all_eq_true, List.any_eq_true]

/-- `compare` on two schemas returns normally exactly when their
`categories` dictionaries do not clash. -/
theorem compareSchema_ok_iff (a b : OcsfSchema) :
    (∃ d, compareSchema a b = .ok d) ↔ dictClash a.categories b.categories = false := by
  obtain ⟨d1, h1⟩ := compareDict_total (fun x y => compareEvent x y)
    (fun m => .model (.event m)) compareEvent_total (some a.classes) (some b.classes)
  obtain ⟨d2, h2⟩ := compareDict_total (fun x y => compareObject x y)
    (fun m => .model (.object m)) compareObject_total (some a.objects) (some b.objects)
  obtain ⟨d3, h3⟩ := compareDict_total (fun x y => .ok (compareType x y))
    (fun m => .model (.type m)) (fun _ _ => ⟨_, rfl⟩) (some a.types) (some b.types)
  obtain ⟨d4, h4⟩ := cmpOptEvent_total a.base_event b.base_event
  obtain ⟨d5, h5⟩ := compareDict_total (fun x y => compareProfile x y)
    (fun m => .model (.profile m)) compareProfile_total a.profiles b.profiles
  obtain ⟨d6, h6⟩ := compareDict_total (fun x y => .ok (compareExtension x y))
    (fun m => .model (.extension m)) (fun _ _ => ⟨_, rfl⟩) a.extensions b.extensions
  simp only [compareSchema, h1, h2, h3, h4, h5, h6, exceptOkBind]
  rw [exists_ok_bind]
  exact compareDictCat_ok_iff a.categories b.categories

/-- C8 (amended): `compare` raises exactly on two `OcsfCategory`
values, or on two `OcsfSchema` values whose `categories` dictionaries
bind some shared key to unequal values (reaching `create_diff` through
`compare_dict`); on every other pair — including two models of
*different* concrete types, for which it returns `Change(old, new)`
by the primitive `==` rule rather than failing hard — it returns a
`Difference` without raising. -/
theorem compare_error_characterization (v1 v2 : Value) :
    (diffOk (compare v1 v2) = false ↔ compareRaises v1 v2 = true)
  ∧ (∀ m1 m2, v1 = .model m1 → v2 = .model m2 → m1.sameKind m2 = false →
      compare v1 v2 = .ok (.change v1 v2)) := by
  constructor
  · cases v1 with
    | model m1 =>
      cases v2 with
      | model m2 =>
        cases m1 <;> cases m2 <;>
          first
          | (simp [compare, compareModels, compareRaises, diffOk]; done)
          | (rename_i x y
             obtain ⟨d, hd⟩ := compareAttr_total x y
             simp [compare, compareModels, compareRaises, diffOk, hd]
             done)
          | (rename_i x y
             obtain ⟨d, hd⟩ := compareObject_total x y
             simp [compare, compareModels, compareRaises, diffOk, hd]
             done)
          | (rename_i x y
             obtain ⟨d, hd⟩ := compareEvent_total x y
             simp [compare, compareModels, compareRaises, diffOk, hd]
             done)
          | (rename_i x y
             obtain ⟨d, hd⟩ := compareProfile_total x y
             simp [compare, compareModels, compareRaises, diffOk, hd]
             done)
          | (rename_i sa sb
             have hiff := compareSchema_ok_iff sa sb
             simp only [compare, compareModels, compareRaises]
             cases hs : compareSchema sa sb with
             | ok d =>
               have hcl := hiff.mp ⟨d, hs⟩
               simp [diffOk, hcl]
             | error e =>
               cases hcl : dictClash sa.categories sb.categories with
               | false =>
                 obtain ⟨d, hd⟩ := hiff.mpr hcl
                 rw [hs] at hd
                 simp at hd
               | true => simp [diffOk])
      | _ => simp [compare, compareRaises, diffOk]
    | _ =>
      cases v2 <;> simp [compare, compareRaises, diffOk]
  · intro m1 m2 h1 h2 hk
    subst h1
    subst h2
    cases m1 <;> cases m2 <;> simp_all [OcsfModelV.sameKind, compare, compareModels]

/-- Witness: two same-shape schemas compare without raising, and two
differently-typed models yield `Change`. -/
theorem compare_error_characterization_witness :
    compare (.model (.version ⟨"1"⟩)) (.model (.enumMember ⟨"E", Option.none, Option.none⟩))
      = .ok (.change (.model (.version ⟨"1"⟩))
          (.model (.enumMember ⟨"E", Option.none, Option.none⟩))) :=
  (compare_error_characterization _ _).2 _ _ rfl rfl (by decide)

/-- Appending a binding with a different key does not change a lookup. -/
theorem listLookup_append_ne {α β : Type} [BEq α] [LawfulBEq α]
    (l : List (α × β)) (a b : α) (v : β) (hne : b ≠ a) :
    (l ++ [(b, v)]).lookup a = l.lookup a := by
  have h1 : (a == b) = false := beq_false_of_ne (Ne.symm hne)
  induction l with
  | nil => simp [List.lookup, h1]
  | cons hd tl ih =>
    simp only [List.cons_append, List.lookup]
    cases hba : a == hd.1
    · simpa using ih
    · rfl

/-- A heap write at a different address does not change a lookup. -/
theorem lookup_storeSet_ne (store : List (Nat × Part)) (a b : Nat) (p : Part)
    (hne : b ≠ a) :
    (storeSet store b p).lookup a = store.lookup a := by
  have h1 : (a == b) = false := beq_false_of_ne (Ne.symm hne)
  induction store with
  | nil => rfl
  | cons hd tl ih =>
    simp only [storeSet, List.map_cons] at ih ⊢
    by_cases hh : hd.1 = b
    · have h2 : (a == hd.1) = false := by rw [hh]; exact h1
      rw [if_pos hh]
      simp only [List.lookup, h1, h2]
      exact ih
    · rw [if_neg hh]
      simp only [List.lookup]
      cases hba : a == hd.1
      · exact ih
      · rfl

/-- A successful association-list lookup locates a member. -/
theorem mem_of_lookup {α β : Type} [BEq α] [LawfulBEq α] {l : List (α × β)} {k : α}
    {v : β} (h : l.lookup k = some v) : (k, v) ∈ l := by
  induction l with
  | nil => simp [List.lookup] at h
  | cons hd tl ih =>
    obtain ⟨k2, v2⟩ := hd
    simp only [List.lookup] at h
    cases hk : k == k2 with
    | true =>
      simp only [hk, Option.some.injEq] at h
      subst h
      have hkey : k = k2 := eq_of_beq hk
      subst hkey
      exact List.mem_cons_self _ _
    | false =>
      simp only [hk] at h
      exact List.mem_cons_of_mem _ (ih h)

/-- Every binding of `filesSet files p a` is an old binding or `(p, a)`. -/
theorem mem_filesSet {files : List (String × Nat)} {p : String} {a : Nat} {qb}
    (h : qb ∈ filesSet files p a) : qb ∈ files ∨ qb = (p, a) := by
  by_cases hs : (files.lookup p).isSome
  · simp only [filesSet, if_pos hs, List.mem_map] at h
    obtain ⟨e, he, hqb⟩ := h
    by_cases hep : e.1 = p
    · right
      rw [← hqb]
      simp [hep]
    · left
      rw [← hqb]
      simp [hep, he]
  · simp only [filesSet, if_neg hs, List.mem_append, List.mem_singleton] at h
    exact h

/-- `ProtoSchema.__getitem__` keeps the repository binding intact, only
allocates fresh addresses, and never writes the heap at a
repository-held address. -/
theorem doGet_frame (s : ProtoState) (p : String)
    (hb : ∀ pa ∈ s.repo, pa.2 < s.next)
    (hf : ∀ qb ∈ s.files, ∀ pa ∈ s.repo, qb.2 ≠ pa.2) :
    (doGet s p).repo = s.repo
    ∧ s.next ≤ (doGet s p).next
    ∧ (∀ pa ∈ (doGet s p).repo, pa.2 < (doGet s p).next)
    ∧ (∀ qb ∈ (doGet s p).files, ∀ pa ∈ (doGet s p).repo, qb.2 ≠ pa.2)
    ∧ (∀ pa ∈ s.repo, (doGet s p).store.lookup pa.2 = s.store.lookup pa.2) := by
  by_cases hs : (s.files.lookup p).isSome
  · have hd : doGet s p = s := by simp [doGet, hs]
    rw [hd]
    exact ⟨rfl, Nat.le_refl _, hb, hf, fun _ _ => rfl⟩
  · cases hr : s.repo.lookup p with
    | none =>
      have hd : doGet s p = s := by simp [doGet, hs, hr]
      rw [hd]
      exact ⟨rfl, Nat.le_refl _, hb, hf, fun _ _ => rfl⟩
    | some a =>
      have hd : doGet s p =
          { s with
            files := s.files ++ [(p, s.next)],
            store := s.store ++ [(s.next, ((s.store.lookup a).getD .nil))],
            next := s.next + 1 } := by
        simp [doGet, hs, hr]
      rw [hd]
      refine ⟨rfl, Nat.le_succ _, ?_, ?_, ?_⟩
      · intro pa hpa
        exact Nat.lt_succ_of_lt (hb pa hpa)
      · intro qb hqb pa hpa
        rcases List.mem_append.mp hqb with hold | hnew
        · exact hf qb hold pa hpa
        · have : qb = (p, s.next) := by simpa using hnew
          rw [this]
          exact fun hc => absurd (hc ▸ hb pa hpa) (Nat.lt_irrefl _)
      · intro pa hpa
        exact listLookup_append_ne s.store pa.2 s.next _
          (fun hc => absurd (hc ▸ hb pa hpa) (Nat.lt_irrefl _))

/-- One compiler access keeps the repository binding intact and never
writes the heap at a repository-held address. -/
theorem applyStep_frame (s : ProtoState) (st : ProtoStep)
    (hb : ∀ pa ∈ s.repo, pa.2 < s.next)
    (hf : ∀ qb ∈ s.files, ∀ pa ∈ s.repo, qb.2 ≠ pa.2) :
    (applyStep s st).repo = s.repo
    ∧ (∀ pa ∈ (applyStep s st).repo, pa.2 < (applyStep s st).next)
    ∧ (∀ qb ∈ (applyStep s st).files, ∀ pa ∈ (applyStep s st).repo, qb.2 ≠ pa.2)
    ∧ (∀ pa ∈ s.repo, (applyStep s st).store.lookup pa.2 = s.store.lookup pa.2) := by
  cases st with
  | getitem p =>
    obtain ⟨h1, _, h3, h4, h5⟩ := doGet_frame s p hb hf
    exact ⟨h1, h3, h4, h5⟩
  | setitem p v =>
    refine ⟨rfl, ?_, ?_, ?_⟩
    · intro pa hpa
      exact Nat.lt_succ_of_lt (hb pa hpa)
    · intro qb hqb pa hpa
      rcases mem_filesSet hqb with hold | hnew
      · exact hf qb hold pa hpa
      · rw [hnew]
        exact fun hc => absurd (hc ▸ hb pa hpa) (Nat.lt_irrefl _)
    · intro pa hpa
      exact listLookup_append_ne s.store pa.2 s.next v
        (fun hc => absurd (hc ▸ hb pa hpa) (Nat.lt_irrefl _))
  | modify p f =>
    obtain ⟨h1, _, h3, h4, h5⟩ := doGet_frame s p hb hf
    simp only [applyStep]
    cases hl : (doGet s p).files.lookup p with
    | none => exact ⟨h1, h3, h4, h5⟩
    | some a =>
      have hmem : (p, a) ∈ (doGet s p).files := mem_of_lookup hl
      refine ⟨h1, h3, h4, ?_⟩
      intro pa hpa
      have hne : a ≠ pa.2 := h4 (p, a) hmem pa (h1 ▸ hpa)
      rw [lookup_storeSet_ne _ pa.2 a _ hne]
      exact h5 pa hpa

/-- C9 (amended): provided every record object the compiler touches is
reached through the `ProtoSchema` overlay — reads deep-copy on first
access, writes bind fresh objects, in-place mutation hits the overlay
copy — a compilation run never rebinds a repository path and never
changes the record stored at a repository-held address, whatever the
sequence of accesses.  (The analyze phase breaks the proviso:
`IncludePlanner.analyze` mutates repository records directly, see the
counterexample.) -/
theorem proto_overlay_preserves_repo (steps : List ProtoStep) (s0 : ProtoState)
    (hb : ∀ pa ∈ s0.repo, pa.2 < s0.next)
    (hf : ∀ qb ∈ s0.files, ∀ pa ∈ s0.repo, qb.2 ≠ pa.2) :
    (runSteps steps s0).repo = s0.repo
    ∧ ∀ pa ∈ s0.repo, (runSteps steps s0).store.lookup pa.2 = s0.store.lookup pa.2 := by
  induction steps generalizing s0 with
  | nil => exact ⟨rfl, fun _ _ => rfl⟩
  | cons st steps ih =>
    obtain ⟨hrepo, hb', hf', hpres⟩ := applyStep_frame s0 st hb hf
    obtain ⟨ihrepo, ihpres⟩ := ih (applyStep s0 st) hb' hf'
    have hrun : runSteps (st :: steps) s0 = runSteps steps (applyStep s0 st) := rfl
    refine ⟨?_, ?_⟩
    · rw [hrun, ihrepo, hrepo]
    · intro pa hpa
      rw [hrun]
      exact (ihpres pa (by rw [hrepo]; exact hpa)).trans (hpres pa hpa)

/-- Witness: a read, an in-place mutation and a fresh write leave the
repository's record at address 0 untouched. -/
theorem proto_overlay_preserves_repo_witness :
    (runSteps [.getitem "a.json",
               .modify "a.json" (fun q => q.set "caption" (.str "z")),
               .setitem "b.json" (.ofList [("caption", .str "b")])]
        ⟨[("a.json", 0)], [], [(0, .ofList [("caption", .str "a")])], 1⟩).store.lookup 0
      = some (.ofList [("caption", .str "a")]) :=
  ((proto_overlay_preserves_repo
      [.getitem "a.json",
       .modify "a.json" (fun q => q.set "caption" (.str "z")),
       .setitem "b.json" (.ofList [("caption", .str "b")])]
      ⟨[("a.json", 0)], [], [(0, .ofList [("caption", .str "a")])], 1⟩
      (by decide) (by decide)).2 ("a.json", 0) (by decide)).trans (by decide)

/-- `renamedE` splits into "no renameable key at this level" and "all
values clean". -/
theorem renamedE_eq (es : Entries) :
    es.renamedE = (noBadKeysTop es && entriesValuesRenamed es) :=
  match es with
  | .nil => rfl
  | .cons k v rest => by
    simp [Entries.renamedE, noBadKeysTop, entriesValuesRenamed, badKey,
      renamedE_eq rest, Bool.and_assoc, Bool.and_comm, Bool.and_left_comm]

/-- Setting an existing key does not change other lookups. -/
theorem Entries.lookup_set_ne (es : Entries) (k : String) (v : FieldVal) (k' : String)
    (h : k ≠ k') : (es.set k v).lookup k' = es.lookup k' :=
  match es with
  | .nil => rfl
  | .cons a b rest => by
    by_cases hak : a = k
    · subst hak
      simp [Entries.set, Entries.lookup, h, Entries.lookup_set_ne rest a v k' h]
    · simp [Entries.set, hak, Entries.lookup, Entries.lookup_set_ne rest k v k' h]

/-- Appending a key does not change other lookups. -/
theorem Entries.lookup_append_ne (es : Entries) (k : String) (v : FieldVal) (k' : String)
    (h : k ≠ k') : (es.append k v).lookup k' = es.lookup k' :=
  match es with
  | .nil => by simp [Entries.append, Entries.lookup, h]
  | .cons a b rest => by
    simp [Entries.append, Entries.lookup, Entries.lookup_append_ne rest k v k' h]

/-- A deleted key no longer resolves. -/
theorem Entries.lookup_delete_self (es : Entries) (k : String) :
    (es.delete k).lookup k = Option.none :=
  match es with
  | .nil => rfl
  | .cons a b rest => by
    by_cases hak : a = k
    · simp [Entries.delete, hak, Entries.lookup_delete_self rest k]
    · simp [Entries.delete, hak, Entries.lookup, Entries.lookup_delete_self rest k]

/-- Deleting a key does not change other lookups. -/
theorem Entries.lookup_delete_ne (es : Entries) (k k' : String) (h : k ≠ k') :
    (es.delete k).lookup k' = es.lookup k' :=
  match es with
  | .nil => rfl
  | .cons a b rest => by
    by_cases hak : a = k
    · subst hak
      simp [Entries.delete, Entries.lookup, h, Entries.lookup_delete_ne rest a k' h]
    · simp [Entries.delete, hak, Entries.lookup, Entries.lookup_delete_ne rest k k' h]

/-- A value looked up in a clean-valued dictionary is clean. -/
theorem entriesValuesRenamed_lookup (es : Entries) (k : String) (v : FieldVal)
    (hv : entriesValuesRenamed es = true) (h : es.lookup k = some v) :
    v.renamed = true :=
  match es with
  | .nil => by simp [Entries.lookup] at h
  | .cons a b rest => by
    simp only [entriesValuesRenamed, Bool.and_eq_true] at hv
    simp only [Entries.lookup] at h
    by_cases hak : a = k
    · simp [hak] at h
      subst h
      exact hv.1
    · simp [hak] at h
      exact entriesValuesRenamed_lookup rest k v hv.2 h

/-- Setting a clean value keeps all values clean. -/
theorem entriesValuesRenamed_set (es : Entries) (k : String) (v : FieldVal)
    (hv : entriesValuesRenamed es = true) (hvr : v.renamed = true) :
    entriesValuesRenamed (es.set k v) = true :=
  match es with
  | .nil => rfl
  | .cons a b rest => by
    simp only [entriesValuesRenamed, Bool.and_eq_true] at hv
    by_cases hak : a = k <;>
      simp [Entries.set, hak, entriesValuesRenamed, hv.1, hvr,
        entriesValuesRenamed_set rest k v hv.2 hvr]

/-- Appending a clean value keeps all values clean. -/
theorem entriesValuesRenamed_append (es : Entries) (k : String) (v : FieldVal)
    (hv : entriesValuesRenamed es = true) (hvr : v.renamed = true) :
    entriesValuesRenamed (es.append k v) = true :=
  match es with
  | .nil => by simp [Entries.append, entriesValuesRenamed, hvr]
  | .cons a b rest => by
    simp only [entriesValuesRenamed, Bool.and_eq_true] at hv
    simp [Entries.append, entriesValuesRenamed, hv.1,
      entriesValuesRenamed_append rest k v hv.2 hvr]

/-- Deleting keeps all values clean. -/
theorem entriesValuesRenamed_delete (es : Entries) (k : String)
    (hv : entriesValuesRenamed es = true) :
    entriesValuesRenamed (es.delete k) = true :=
  match es with
  | .nil => rfl
  | .cons a b rest => by
    simp only [entriesValuesRenamed, Bool.and_eq_true] at hv
    by_cases hak : a = k <;>
      simp [Entries.delete, hak, entriesValuesRenamed, hv.1,
        entriesValuesRenamed_delete rest k hv.2]

/-- `d[new] = d[old]; del d[old]` keeps all values clean. -/
theorem renameKey_valuesRenamed (es : Entries) (old new : String)
    (hv : entriesValuesRenamed es = true) :
    entriesValuesRenamed (renameKey es old new) = true := by
  unfold renameKey
  cases h : es.lookup old with
  | none => exact hv
  | some v =>
    have hvr := entriesValuesRenamed_lookup es old v hv h
    show entriesValuesRenamed
      ((if (es.lookup new).isSome = true then es.set new v else es.append new v).delete old)
      = true
    by_cases hn : (es.lookup new).isSome
    · rw [if_pos hn]
      exact entriesValuesRenamed_delete _ old (entriesValuesRenamed_set es new v hv hvr)
    · rw [if_neg hn]
      exact entriesValuesRenamed_delete _ old (entriesValuesRenamed_append es new v hv hvr)

/-- After a rename, the renamed key is gone. -/
theorem renameKey_lookup_old (es : Entries) (old new : String) :
    (renameKey es old new).lookup old = Option.none := by
  unfold renameKey
  cases h : es.lookup old with
  | none => exact h
  | some v =>
    show ((if (es.lookup new).isSome = true then es.set new v
        else es.append new v).delete old).lookup old = Option.none
    by_cases hn : (es.lookup new).isSome <;>
      simp [hn, Entries.lookup_delete_self]

/-- A rename does not change lookups of keys other than its source and
target. -/
theorem renameKey_lookup_other (es : Entries) (old new k : String)
    (h1 : k ≠ old) (h2 : k ≠ new) :
    (renameKey es old new).lookup k = es.lookup k := by
  unfold renameKey
  cases h : es.lookup old with
  | none => rfl
  | some v =>
    show ((if (es.lookup new).isSome = true then es.set new v
        else es.append new v).delete old).lookup k = es.lookup k
    by_cases hn : (es.lookup new).isSome
    · rw [if_pos hn, Entries.lookup_delete_ne _ old k (Ne.symm h1),
        Entries.lookup_set_ne es new v k (Ne.symm h2)]
    · rw [if_neg hn, Entries.lookup_delete_ne _ old k (Ne.symm h1),
        Entries.lookup_append_ne es new v k (Ne.symm h2)]

/-- A dictionary with no resolvable renameable key has no renameable
key at the top level. -/
theorem noBadKeysTop_of_lookup (es : Entries)
    (h : ∀ k, badKey k = true → (es.lookup k).isSome = false) :
    noBadKeysTop es = true :=
  match es with
  | .nil => rfl
  | .cons k v rest => by
    cases hbk : badKey k with
    | true =>
      exfalso
      have := h k hbk
      simp [Entries.lookup] at this
    | false =>
      simp only [noBadKeysTop, hbk, Bool.not_false, Bool.true_and]
      apply noBadKeysTop_of_lookup
      intro k' hk'
      have hh := h k' hk'
      by_cases hkk : k = k'
      · simp [Entries.lookup, hkk] at hh
      · simpa [Entries.lookup, hkk] using hh

/-- Applying a good rename table that covers every resolvable
renameable key yields a recursively clean dictionary, provided all
values are already clean. -/
theorem applyRenames_renamedE (ops : List (String × String)) (es : Entries)
    (hv : entriesValuesRenamed es = true)
    (hg : goodOps ops = true)
    (hc : ∀ k, badKey k = true → (es.lookup k).isSome = true →
      (ops.lookup k).isSome = true) :
    (applyRenames es ops).renamedE = true := by
  induction ops generalizing es with
  | nil =>
    show es.renamedE = true
    rw [renamedE_eq]
    have hnb : noBadKeysTop es = true := by
      apply noBadKeysTop_of_lookup
      intro k hk
      cases hs : (es.lookup k).isSome with
      | false => rfl
      | true =>
        have := hc k hk hs
        simp [List.lookup] at this
    simp [hnb, hv]
  | cons op rest ih =>
    obtain ⟨old, new⟩ := op
    simp only [goodOps, List.all_cons, Bool.and_eq_true, Bool.not_eq_true'] at hg
    obtain ⟨⟨hold, hnew⟩, hrest⟩ := hg
    show (applyRenames (renameKey es old new) rest).renamedE = true
    apply ih (renameKey es old new) (renameKey_valuesRenamed es old new hv) hrest
    intro k hk hs
    by_cases hko : k = old
    · subst hko
      rw [renameKey_lookup_old es k new] at hs
      simp at hs
    · have hkn : k ≠ new := by
        intro hkn
        subst hkn
        rw [hk] at hnew
        cases hnew
      rw [renameKey_lookup_other es old new k hko hkn] at hs
      have := hc k hk hs
      simpa [List.lookup, beq_false_of_ne hko] using this

/-- A successful lookup in `_KEY_TRANSFORMS` starts at a renameable key
and lands on a non-renameable one. -/
theorem keyTransforms_lookup_char (k new : String)
    (h : (keyTransforms : List (String × String)).lookup k = some new) :
    badKey k = true ∧ badKey new = false := by
  by_cases h1 : k = "@deprecated"
  · subst h1
    simp [keyTransforms, List.lookup] at h
    subst h
    exact ⟨by decide, by decide⟩
  · by_cases h2 : k = "$include"
    · subst h2
      simp [keyTransforms, List.lookup] at h
      subst h
      exact ⟨by decide, by decide⟩
    · have hb1 : (k == "@deprecated") = false := beq_false_of_ne h1
      have hb2 : (k == "$include") = false := beq_false_of_ne h2
      simp [keyTransforms, List.lookup, hb1, hb2] at h

/-- Every renameable key resolves in `_KEY_TRANSFORMS`. -/
theorem keyTransforms_lookup_isSome (k : String) (hbk : badKey k = true) :
    ((keyTransforms : List (String × String)).lookup k).isSome = true := by
  simp only [badKey, Bool.or_eq_true, decide_eq_true_eq] at hbk
  rcases hbk with h | h <;> subst h <;> decide

/-- The rename table `keys_to_names` collects is good. -/
theorem collectOps_good (es : Entries) :
    goodOps (collectOps keyTransforms es) = true :=
  match es with
  | .nil => rfl
  | .cons k v rest => by
    cases h : (keyTransforms : List (String × String)).lookup k with
    | none => simpa [collectOps, h] using collectOps_good rest
    | some new =>
      have hchar := keyTransforms_lookup_char k new h
      simpa [collectOps, h, goodOps, List.all_cons, hchar.1, hchar.2]
        using collectOps_good rest

/-- The collected rename table covers every resolvable renameable
key. -/
theorem collectOps_covers (es : Entries) (k : String) (hbk : badKey k = true)
    (hsome : (es.lookup k).isSome = true) :
    ((collectOps keyTransforms es).lookup k).isSome = true :=
  match es with
  | .nil => by simp [Entries.lookup] at hsome
  | .cons k' v rest => by
    by_cases hkk : k' = k
    · subst hkk
      have ht := keyTransforms_lookup_isSome k' hbk
      cases h : (keyTransforms : List (String × String)).lookup k' with
      | none => rw [h] at ht; simp at ht
      | some new =>
        simp only [collectOps, h]
        simp [List.lookup]
    · have hrest : (rest.lookup k).isSome = true := by
        simpa [Entries.lookup, hkk] using hsome
      cases h : (keyTransforms : List (String × String)).lookup k' with
      | none => simpa [collectOps, h] using collectOps_covers rest k hbk hrest
      | some new =>
        have hcov := collectOps_covers rest k hbk hrest
        simp only [collectOps, h]
        simpa [List.lookup, beq_false_of_ne (Ne.symm hkk)] using hcov

/-- The recursive cleaning pass preserves keys, cleaning values. -/
theorem lookup_keysToNamesVals (es : Entries) (k : String) :
    (keysToNamesVals es).lookup k = (es.lookup k).map keysToNamesVal :=
  match es with
  | .nil => rfl
  | .cons k' v rest => by
    by_cases h : k' = k <;>
      simp [keysToNamesVals, Entries.lookup, h, lookup_keysToNamesVals rest k]

/-- Spine sizes are positive. -/
theorem Entries.nodesE_pos (es : Entries) : 1 ≤ es.nodesE := by
  cases es <;> simp [Entries.nodesE]

/-- All values produced by the recursive cleaning pass are clean,
given cleanliness of every value of bounded size. -/
theorem valsRenamed_of_bound (n : Nat)
    (hval : ∀ v : FieldVal, v.nodes ≤ n → (keysToNamesVal v).renamed = true) :
    ∀ es : Entries, es.nodesE ≤ n → entriesValuesRenamed (keysToNamesVals es) = true
  | .nil, _ => rfl
  | .cons k v rest, h => by
    have hd : v.nodes + rest.nodesE + 1 ≤ n := by
      simpa [Entries.nodesE] using h
    have h1 : v.nodes ≤ n := by omega
    have h2 : rest.nodesE ≤ n := by omega
    simp [keysToNamesVals, entriesValuesRenamed, hval v h1,
      valsRenamed_of_bound n hval rest h2]

/-- `keys_to_names` produces a recursively clean dictionary, and the
cleaning of a single value is clean — by strong induction on spine
size. -/
theorem keysToNames_renamed_aux (n : Nat) :
    (∀ v : FieldVal, v.nodes ≤ n → (keysToNamesVal v).renamed = true)
    ∧ (∀ es : Entries, es.nodesE ≤ n → (keys_to_names es).renamedE = true) := by
  induction n using Nat.strong_induction_on with
  | _ n ih =>
    have hval : ∀ v : FieldVal, v.nodes ≤ n → (keysToNamesVal v).renamed = true := by
      intro v hv
      cases v with
      | dict es =>
        have hn : es.nodesE + 1 ≤ n := by simpa [FieldVal.nodes] using hv
        have hlt : es.nodesE < n := by omega
        have h2 := (ih es.nodesE hlt).2 es (Nat.le_refl _)
        simpa [keysToNamesVal, FieldVal.renamed, keys_to_names] using h2
      | none => rfl
      | str sv => rfl
      | int iv => rfl
      | bool bv => rfl
      | list xs => rfl
      | part fs => rfl
    refine ⟨hval, ?_⟩
    intro es hes
    have hvals : entriesValuesRenamed (keysToNamesVals es) = true :=
      valsRenamed_of_bound n hval es hes
    show (applyRenames (keysToNamesVals es) (collectOps keyTransforms es)).renamedE = true
    apply applyRenames_renamedE _ _ hvals (collectOps_good es)
    intro k hbk hs
    rw [lookup_keysToNamesVals] at hs
    have hsome : (es.lookup k).isSome = true := by
      cases h : es.lookup k
      · rw [h] at hs; simp at hs
      · rfl
    exact collectOps_covers es k hbk hsome

/-- C10 (amended): `from_dict` passes the caller's dictionary to
`keys_to_names`, which renames keys in place, so after the call the
caller's dictionary holds the renamed value; every `@deprecated` /
`$include` key reachable through dictionary *values* — at any depth —
has been renamed, but dictionaries that occur inside lists are not
visited (the counterexample), so "at any nesting depth" holds only
along dictionary values. -/
theorem from_dict_arg_renamed (d : Entries) :
    from_dict_arg d = keys_to_names d ∧ (from_dict_arg d).renamedE = true := by
  refine ⟨rfl, ?_⟩
  show (keys_to_names d).renamedE = true
  exact (keysToNames_renamed_aux d.nodesE).2 d (Nat.le_refl _)

/-- C5: for a phase holding an operation `a` with no prerequisite and
operations `b`, `c` that each declare prerequisite `a` (distinct target
paths), whatever the phase dictionary's insertion order, the flattened
plan `order` produces places `a` before both `b` and `c` and is a
permutation of `\x7ba, b, c\x7d` — in particular it holds no duplicate
operation instances: the depth-first `follow` emits a prerequisite
path's operations before the target's own and guards revisits with the
`planned` set. -/
theorem order_prerequisites_first (pa pb pc : String) (ia ib ic : Nat)
    (hab : pa ≠ pb) (hac : pa ≠ pc) (hbc : pb ≠ pc)
    (phase : FileOperations) (hphase : phase ∈ c5Phases pa pb pc ia ib ic) :
    List.Sublist [⟨pa, Option.none, ia⟩, ⟨pb, some pa, ib⟩] (order [phase])
    ∧ List.Sublist [⟨pa, Option.none, ia⟩, ⟨pc, some pa, ic⟩] (order [phase])
    ∧ (order [phase]).Perm
        [⟨pa, Option.none, ia⟩, ⟨pb, some pa, ib⟩, ⟨pc, some pa, ic⟩] := by
  have h1 : (pa == pb) = false := beq_false_of_ne hab
  have h2 : (pb == pa) = false := beq_false_of_ne (Ne.symm hab)
  have h3 : (pa == pc) = false := beq_false_of_ne hac
  have h4 : (pc == pa) = false := beq_false_of_ne (Ne.symm hac)
  have h5 : (pb == pc) = false := beq_false_of_ne hbc
  have h6 : (pc == pb) = false := beq_false_of_ne (Ne.symm hbc)
  set A : Operation := ⟨pa, Option.none, ia⟩ with hA
  set B : Operation := ⟨pb, some pa, ib⟩ with hB
  set C : Operation := ⟨pc, some pa, ic⟩ with hC
  simp only [c5Phases, List.mem_cons, List.not_mem_nil, or_false, ← hA, ← hB, ← hC]
    at hphase
  rcases hphase with h | h | h | h | h | h <;> subst h
  · have hplan : order [[(pa, [A]), (pb, [B]), (pc, [C])]] = [A, B, C] := by
      simp [order, orderPhase, follow, followGo, phaseFuel, List.lookup,
        List.contains, h1, h2, h3, h4, h5, h6, hab, hac, hbc,
        Ne.symm hab, Ne.symm hac, Ne.symm hbc]
    rw [hplan]
    exact ⟨List.Sublist.cons₂ _ (List.Sublist.cons₂ _ (List.nil_sublist _)),
      List.Sublist.cons₂ _ (List.Sublist.cons _ (List.Sublist.refl _)),
      List.Perm.refl _⟩
  · have hplan : order [[(pa, [A]), (pc, [C]), (pb, [B])]] = [A, C, B] := by
      simp [order, orderPhase, follow, followGo, phaseFuel, List.lookup,
        List.contains, h1, h2, h3, h4, h5, h6, hab, hac, hbc,
        Ne.symm hab, Ne.symm hac, Ne.symm hbc]
    rw [hplan]
    exact ⟨List.Sublist.cons₂ _ (List.Sublist.cons _ (List.Sublist.refl _)),
      List.Sublist.cons₂ _ (List.Sublist.cons₂ _ (List.nil_sublist _)),
      List.Perm.cons _ (List.Perm.swap _ _ _)⟩
  · have hplan : order [[(pb, [B]), (pa, [A]), (pc, [C])]] = [A, B, C] := by
      simp [order, orderPhase, follow, followGo, phaseFuel, List.lookup,
        List.contains, h1, h2, h3, h4, h5, h6, hab, hac, hbc,
        Ne.symm hab, Ne.symm hac, Ne.symm hbc]
    rw [hplan]
    exact ⟨List.Sublist.cons₂ _ (List.Sublist.cons₂ _ (List.nil_sublist _)),
      List.Sublist.cons₂ _ (List.Sublist.cons _ (List.Sublist.refl _)),
      List.Perm.refl _⟩
  · have hplan : order [[(pb, [B]), (pc, [C]), (pa, [A])]] = [A, B, C] := by
      simp [order, orderPhase, follow, followGo, phaseFuel, List.lookup,
        List.contains, h1, h2, h3, h4, h5, h6, hab, hac, hbc,
        Ne.symm hab, Ne.symm hac, Ne.symm hbc]
    rw [hplan]
    exact ⟨List.Sublist.cons₂ _ (List.Sublist.cons₂ _ (List.nil_sublist _)),
      List.Sublist.cons₂ _ (List.Sublist.cons _ (List.Sublist.refl _)),
      List.Perm.refl _⟩
  · have hplan : order [[(pc, [C]), (pa, [A]), (pb, [B])]] = [A, C, B] := by
      simp [order, orderPhase, follow, followGo, phaseFuel, List.lookup,
        List.contains, h1, h2, h3, h4, h5, h6, hab, hac, hbc,
        Ne.symm hab, Ne.symm hac, Ne.symm hbc]
    rw [hplan]
    exact ⟨List.Sublist.cons₂ _ (List.Sublist.cons _ (List.Sublist.refl _)),
      List.Sublist.cons₂ _ (List.Sublist.cons₂ _ (List.nil_sublist _)),
      List.Perm.cons _ (List.Perm.swap _ _ _)⟩
  · have hplan : order [[(pc, [C]), (pb, [B]), (pa, [A])]] = [A, C, B] := by
      simp [order, orderPhase, follow, followGo, phaseFuel, List.lookup,
        List.contains, h1, h2, h3, h4, h5, h6, hab, hac, hbc,
        Ne.symm hab, Ne.symm hac, Ne.symm hbc]
    rw [hplan]
    exact ⟨List.Sublist.cons₂ _ (List.Sublist.cons _ (List.Sublist.refl _)),
      List.Sublist.cons₂ _ (List.Sublist.cons₂ _ (List.nil_sublist _)),
      List.Perm.cons _ (List.Perm.swap _ _ _)⟩

/-- Witness: the ordering theorem at concrete paths `a`, `b`, `c` in
the insertion order `[a, b, c]`. -/
theorem order_prerequisites_first_witness :
    List.Sublist [(⟨"a", Option.none, 0⟩ : Operation), ⟨"b", some "a", 1⟩]
      (order [[("a", [⟨"a", Option.none, 0⟩]), ("b", [⟨"b", some "a", 1⟩]),
               ("c", [⟨"c", some "a", 2⟩])]])
    ∧ List.Sublist [(⟨"a", Option.none, 0⟩ : Operation), ⟨"c", some "a", 2⟩]
      (order [[("a", [⟨"a", Option.none, 0⟩]), ("b", [⟨"b", some "a", 1⟩]),
               ("c", [⟨"c", some "a", 2⟩])]])
    ∧ (order [[("a", [(⟨"a", Option.none, 0⟩ : Operation)]), ("b", [⟨"b", some "a", 1⟩]),
               ("c", [⟨"c", some "a", 2⟩])]]).Perm
        [⟨"a", Option.none, 0⟩, ⟨"b", some "a", 1⟩, ⟨"c", some "a", 2⟩] :=
  order_prerequisites_first "a" "b" "c" 0 1 2 (by decide) (by decide) (by decide)
    _ (by simp [c5Phases])

set_option maxHeartbeats 40000000 in
/-- C6: UID synthesis.  For the `stuff` event repository shape with
event uid `u`, category uid `c` and extension uid `e`, `UidOp.apply`
returns the event with `class_uid = e*100000 + c*1000 + u` written to
`uid`, a `class_uid` enum keyed by that value, a `category_uid` enum
keyed by `c`, and a `type_uid` enum with one member per `activity_id`
enum key `k`, keyed by `class_uid*100 + k` and captioned
`"<event caption>: <activity caption>"`; when the event is not
extension-introduced the extension uid is `0`; and concretely `u = 2`,
`c = 1`, `e = 0` gives `class_uid = 1002` with `type_uid` keys
`"100201"` and `"100202"`. -/
theorem uid_synthesis_formula :
    (∀ (u c e : Int) (cap catCap a1 a2 : String),
      uidApply (c6Repo u c e cap catCap a1 a2) "events/stuff.json"
        = .ok (c6Expected u cap a1 a2 (.str "win") (e * 100000 + c * 1000 + u) c catCap))
  ∧ (∀ (u c : Int) (cap catCap a1 a2 : String),
      uidApply (c6RepoNoExt u c cap catCap a1 a2) "events/stuff.json"
        = .ok (c6Expected u cap a1 a2 .none (0 * 100000 + c * 1000 + u) c catCap))
  ∧ uidApply (c6RepoNoExt 2 1 "Stuff" "Cat" "Read" "Write") "events/stuff.json"
      = .ok (c6Expected 2 "Stuff" "Read" "Write" .none 1002 1 "Cat") := by
  refine ⟨?_, ?_, ?_⟩
  · intro u c e cap catCap a1 a2
    have hfront : uidApply (c6Repo u c e cap catCap a1 a2) "events/stuff.json"
        = .ok (merge (c6EventDefn u cap a1 a2 (.str "win"))
            (c6Enums (.int (e * 100000 + c * 1000 + u)) (e * 100000 + c * 1000 + u)
              c cap catCap a1 a2)
            (some true) (some uidAllowedFields)) := rfl
    have hmerge : merge (c6EventDefn u cap a1 a2 (.str "win"))
        (c6Enums (.int (e * 100000 + c * 1000 + u)) (e * 100000 + c * 1000 + u)
          c cap catCap a1 a2)
        (some true) (some uidAllowedFields)
        = c6Expected u cap a1 a2 (.str "win") (e * 100000 + c * 1000 + u) c catCap := rfl
    exact hfront.trans (congrArg Except.ok hmerge)
  · intro u c cap catCap a1 a2
    have hfront : uidApply (c6RepoNoExt u c cap catCap a1 a2) "events/stuff.json"
        = .ok (merge (c6EventDefn u cap a1 a2 .none)
            (c6Enums (.int (0 * 100000 + c * 1000 + u)) (0 * 100000 + c * 1000 + u)
              c cap catCap a1 a2)
            (some true) (some uidAllowedFields)) := rfl
    have hmerge : merge (c6EventDefn u cap a1 a2 .none)
        (c6Enums (.int (0 * 100000 + c * 1000 + u)) (0 * 100000 + c * 1000 + u)
          c cap catCap a1 a2)
        (some true) (some uidAllowedFields)
        = c6Expected u cap a1 a2 .none (0 * 100000 + c * 1000 + u) c catCap := rfl
    exact hfront.trans (congrArg Except.ok hmerge)
  · decide

end Ocsf
